import Mathlib

/-!
Verification of the Kaleidoscope media-enrichment pipeline.

Shallow embedding of the Python sources under `src/` :
* `shared/redis_streams/consumer.py`  — consumer-group consume loop and
  pending-message reclaim scan
* `shared/redis_streams/publisher.py` — stream publisher field coercion
* `shared/utils/retry.py`             — `publish_to_dlq`
* `services/dlq_processor/worker.py`  — DLQ entry decoding
* `shared/providers/huggingface/face.py`, `services/face_recognition/worker.py`
  — embedding normalization
* `services/post_aggregator/worker.py` — insight aggregation
* `shared/providers/huggingface/tagger.py` — top-N tagging
* `shared/providers/huggingface/moderation.py` — is_safe synthesis
* `services/es_sync/worker.py`        — batch flush loop
* `shared/utils/circuit_breaker.py`   — circuit breaker state machine

Machine integers/floats are modelled as `Nat`/`Int`/`Rat`; Python dicts as
insertion-ordered association lists; fallible code as `Except`/`Option`.
-/

namespace Kaleidoscope

/-! ## Redis stream consumer (`shared/redis_streams/consumer.py`) -/

abbrev MsgId := String

/-- A stream entry's field map (bytes keys/values, kept as strings). -/
abbrev EntryData := List (String × String)

/-- `PENDING_IDLE_MS = 300_000` (5 minutes). -/
def PENDING_IDLE_MS : Nat := 300000

/-- `PENDING_CHECK_INTERVAL = 60` seconds. -/
def PENDING_CHECK_INTERVAL : Nat := 60

/-- `DEFAULT_MAX_CLAIM_FAILURES = 3`. -/
def DEFAULT_MAX_CLAIM_FAILURES : Nat := 3

/-- The consumer group's pending-entries list (PEL) for one stream. -/
structure GroupState where
  pending : List MsgId
deriving Repr, DecidableEq

/-- `XACK`: the only operation that removes an entry from the pending set. -/
def xack (st : GroupState) (id : MsgId) : GroupState :=
  ⟨st.pending.filter (fun x => x ≠ id)⟩

/-- `XREADGROUP` delivery of a new entry adds it to the group's pending set. -/
def deliver (st : GroupState) (id : MsgId) : GroupState :=
  ⟨st.pending ++ [id]⟩

/-- A message handler: returns normally (`.ok`) or raises (`.error`). -/
abbrev Handler := MsgId → EntryData → Except String Unit

/-- One iteration of the inner loop of `RedisStreamConsumer.consume`
(`consumer.py` lines 229-245): the entry is delivered, the handler is invoked
inside `try`, and `xack` runs only when the handler returned; an exception is
caught and the loop continues without acking.  Returns the new group state and
whether the entry was acked. -/
def processNewEntry (handler : Handler) (st : GroupState) (e : MsgId × EntryData) :
    GroupState × Bool :=
  let st1 := deliver st e.1
  match handler e.1 e.2 with
  | .ok _ => (xack st1 e.1, true)
  | .error _ => (st1, false)

/-- Processing of one `xreadgroup` batch by `consume`: fold
`processNewEntry` over the batch, collecting the ids that were acked. -/
def consumeBatch (handler : Handler) (st : GroupState)
    (entries : List (MsgId × EntryData)) : GroupState × List MsgId :=
  entries.foldl
    (fun (acc : GroupState × List MsgId) e =>
      let r := processNewEntry handler acc.1 e
      (r.1, acc.2 ++ if r.2 then [e.1] else []))
    (st, [])

/-- Whether a handler invocation returned normally. -/
def exceptOk : Except String Unit → Bool
  | .ok _ => true
  | .error _ => false

/-! ## Pending-message reclaim scan (`claim_pending_messages`) -/

/-- One row of `XPENDING` output as read by `claim_pending_messages`:
`message_id`, `time_since_delivered` (ms) and `times_delivered`. -/
structure PendingInfo where
  messageId : MsgId
  idle : Nat
  timesDelivered : Nat
deriving Repr, DecidableEq

/-- Consumer configuration relevant to the scan: `max_claim_failures` and
whether a `dlq_publisher` callback was provided. -/
structure ConsumerCfg where
  maxClaimFailures : Nat
  dlqConfigured : Bool
deriving Repr, DecidableEq

/-- Observable effects of `claim_pending_messages`, in program order. -/
inductive ScanAction where
  /-- the original entry was read by id and handed to `dlq_publisher` -/
  | dlqEmit (id : MsgId) (data : EntryData)
  /-- `XACK` of the entry -/
  | ack (id : MsgId)
  /-- `XCLAIM` transferred the entry to this consumer -/
  | claim (id : MsgId)
  /-- the handler was re-dispatched on the claimed entry; `ok` records
  whether it returned normally -/
  | dispatch (id : MsgId) (ok : Bool)
deriving Repr, DecidableEq

/-- Processing of one pending entry by `claim_pending_messages`
(`consumer.py` lines 110-173).  `stream id` is the `XRANGE` lookup of the
original entry; `claimRes id` is the (possibly empty) result of `XCLAIM`. -/
def scanEntry (cfg : ConsumerCfg) (stream : MsgId → Option EntryData)
    (claimRes : MsgId → Option EntryData) (handler : Handler)
    (e : PendingInfo) : List ScanAction :=
  if e.idle < PENDING_IDLE_MS then []
  else if cfg.maxClaimFailures ≤ e.timesDelivered ∧ cfg.dlqConfigured then
    -- raw = xrange(stream, min=msg_id, max=msg_id); data = raw[0][1] if raw else {}
    let data := (stream e.messageId).getD []
    -- dlq_publisher(msg_id, data); ... xack regardless of dlq errors
    [.dlqEmit e.messageId data, .ack e.messageId]
  else
    match claimRes e.messageId with
    | none => []
    | some d =>
      match handler e.messageId d with
      | .ok _ => [.claim e.messageId, .dispatch e.messageId true, .ack e.messageId]
      | .error _ => [.claim e.messageId, .dispatch e.messageId false]

/-- The whole scan over the `XPENDING` range. -/
def claimPendingScan (cfg : ConsumerCfg) (stream : MsgId → Option EntryData)
    (claimRes : MsgId → Option EntryData) (handler : Handler)
    (pending : List PendingInfo) : List ScanAction :=
  pending.flatMap (scanEntry cfg stream claimRes handler)

/-! ## Publisher field coercion and the DLQ contract
(`shared/redis_streams/publisher.py`, `shared/utils/retry.py`,
`services/dlq_processor/worker.py`) -/

/-- the apostrophe character (used by Python `repr` of `bytes`) -/
def squoteC : Char := Char.ofNat 39

def dquoteC : Char := Char.ofNat 34

def backslashC : Char := Char.ofNat 92

def lbraceC : Char := Char.ofNat 123

def rbraceC : Char := Char.ofNat 125

/-- Python `str`/`repr` of a `bytes` value whose content is printable ASCII
without quotes or backslashes: `b` followed by the content in single quotes. -/
def pyBytesRepr (s : String) : String :=
  "b" ++ String.singleton squoteC ++ s ++ String.singleton squoteC

/-- Python `str` of a `Dict[bytes, bytes]` (the raw entry passed by workers to
`publish_to_dlq`): `\x7bb'k': b'v', ...\x7d`. -/
def pyBytesDictRepr (d : List (String × String)) : String :=
  String.singleton lbraceC
    ++ String.intercalate ", "
        (d.map (fun kv => pyBytesRepr kv.1 ++ ": " ++ pyBytesRepr kv.2))
    ++ String.singleton rbraceC

/-- Model of Python `str` on a float value; exact for integral values (the
only ones the theorems inspect). -/
def pyFloatStr (q : ℚ) : String :=
  if q.den = 1 then toString q.num ++ ".0"
  else toString q.num ++ "/" ++ toString q.den

/-- A Python value as it appears among `publish`'s field values. -/
inductive PyVal where
  | str (s : String)
  | bytesDict (d : List (String × String))
  | num (q : ℚ)
deriving Repr, DecidableEq

/-- `RedisStreamPublisher.publish` coerces each non-bytes field value with
`str(v)` (`publisher.py` lines 44-45). -/
def pubCoerce : PyVal → String
  | .str s => s
  | .bytesDict d => pyBytesDictRepr d
  | .num q => pyFloatStr q

/-- The `dlq_message` dict built by `publish_to_dlq` (`retry.py` lines
104-112), in insertion order.  `originalData` is the raw entry dict the
worker received from the stream. -/
def dlqMessage (originalMessageId : String) (originalData : List (String × String))
    (errorMsg : String) (errorType : String) (serviceName : String)
    (retryCount : Nat) (now : ℚ) : List (String × PyVal) :=
  [("originalMessageId", .str originalMessageId),
   ("originalData", .bytesDict originalData),
   ("service", .str serviceName),
   ("error", .str errorMsg),
   ("errorType", .str errorType),
   ("retryCount", .str (toString retryCount)),
   ("timestamp", .num now)]

/-- The wire form of the DLQ entry after `publisher.publish`'s coercion. -/
def dlqWire (originalMessageId : String) (originalData : List (String × String))
    (errorMsg : String) (errorType : String) (serviceName : String)
    (retryCount : Nat) (now : ℚ) : List (String × String) :=
  (dlqMessage originalMessageId originalData errorMsg errorType serviceName
      retryCount now).map (fun kv => (kv.1, pubCoerce kv.2))

/-! ### JSON values and `json.loads`
(model of the stdlib parser used by `decode_message` and the DLQ processor;
covers objects, arrays, quoted strings without escapes, decimal numbers
without exponents, and the three literals — enough for the wire data of this
pipeline). -/

inductive JVal where
  | null
  | bool (b : Bool)
  | num (q : ℚ)
  | str (s : String)
  | arr (l : List JVal)
  | obj (l : List (String × JVal))

def skipWs : List Char → List Char
  | [] => []
  | c :: cs => if c = ' ' ∨ c = '\t' ∨ c = '\n' ∨ c = '\r' then skipWs cs else c :: cs

/-- Parse a JSON string body (input starts after the opening quote);
escape sequences are rejected. -/
def parseJStr : List Char → Option (String × List Char)
  | [] => none
  | c :: cs =>
    if c = dquoteC then some ("", cs)
    else if c = backslashC then none
    else (parseJStr cs).map (fun r => (String.singleton c ++ r.1, r.2))

def takeDigits : List Char → List Char × List Char
  | [] => ([], [])
  | c :: cs =>
    if c.isDigit then
      let r := takeDigits cs
      (c :: r.1, r.2)
    else ([], c :: cs)

def digitsToNat (l : List Char) : Nat :=
  l.foldl (fun n c => 10 * n + (c.toNat - 48)) 0

/-- Parse a decimal number: optional minus sign, integer digits, optional
fractional part. -/
def parseJNum (cs : List Char) : Option (ℚ × List Char) :=
  let (neg, cs1) :=
    match cs with
    | c :: rest => if c = '-' then (true, rest) else (false, cs)
    | [] => (false, cs)
  let (intDs, cs2) := takeDigits cs1
  if intDs.isEmpty then none
  else
    let intPart : ℚ := (digitsToNat intDs : ℚ)
    let signed : ℚ → ℚ := fun v => if neg then -v else v
    match cs2 with
    | c :: cs3 =>
      if c = '.' then
        let (fracDs, cs4) := takeDigits cs3
        if fracDs.isEmpty then none
        else
          some (signed (intPart + (digitsToNat fracDs : ℚ) / ((10 : ℚ) ^ fracDs.length)), cs4)
      else some (signed intPart, c :: cs3)
    | [] => some (signed intPart, [])

mutual

def parseJVal : Nat → List Char → Option (JVal × List Char)
  | 0, _ => none
  | fuel + 1, cs =>
    match skipWs cs with
    | [] => none
    | c :: rest =>
      if c = dquoteC then (parseJStr rest).map (fun r => (.str r.1, r.2))
      else if c = lbraceC then parseJObjTail fuel rest
      else if c = '[' then parseJArrTail fuel rest
      else if c.isDigit ∨ c = '-' then
        (parseJNum (c :: rest)).map (fun r => (.num r.1, r.2))
      else if (c :: rest).take 4 = "true".toList then
        some (.bool true, (c :: rest).drop 4)
      else if (c :: rest).take 5 = "false".toList then
        some (.bool false, (c :: rest).drop 5)
      else if (c :: rest).take 4 = "null".toList then
        some (.null, (c :: rest).drop 4)
      else none

/-- Items of an array (input starts after `[`). -/
def parseJArrTail : Nat → List Char → Option (JVal × List Char)
  | 0, _ => none
  | fuel + 1, cs =>
    match skipWs cs with
    | c :: rest =>
      if c = ']' then some (.arr [], rest)
      else
        match parseJVal fuel (c :: rest) with
        | none => none
        | some (v, cs1) =>
          match skipWs cs1 with
          | d :: cs2 =>
            if d = ',' then
              -- a trailing comma is rejected: another item must follow
              match skipWs cs2 with
              | e :: _ =>
                if e = ']' then none
                else
                  match parseJArrTail fuel cs2 with
                  | some (.arr vs, cs3) => some (.arr (v :: vs), cs3)
                  | _ => none
              | [] => none
            else if d = ']' then some (.arr [v], cs2)
            else none
          | [] => none
    | [] => none

/-- Items of an object (input starts after the opening brace). -/
def parseJObjTail : Nat → List Char → Option (JVal × List Char)
  | 0, _ => none
  | fuel + 1, cs =>
    match skipWs cs with
    | c :: rest =>
      if c = rbraceC then some (.obj [], rest)
      else if c = dquoteC then
        match parseJStr rest with
        | none => none
        | some (k, cs1) =>
          match skipWs cs1 with
          | d :: cs2 =>
            if d = ':' then
              match parseJVal fuel cs2 with
              | none => none
              | some (v, cs3) =>
                match skipWs cs3 with
                | e :: cs4 =>
                  if e = ',' then
                    -- a trailing comma is rejected: another member must follow
                    match skipWs cs4 with
                    | f :: _ =>
                      if f = rbraceC then none
                      else
                        match parseJObjTail fuel cs4 with
                        | some (.obj kvs, cs5) => some (.obj ((k, v) :: kvs), cs5)
                        | _ => none
                    | [] => none
                  else if e = rbraceC then some (.obj [(k, v)], cs4)
                  else none
                | [] => none
            else none
          | [] => none
      else none
    | [] => none

end

/-- `json.loads`: the whole input must parse as a single JSON value. -/
def jsonLoads (s : String) : Option JVal :=
  match parseJVal (s.length + 1) s.toList with
  | some (v, rest) => if skipWs rest = [] then some v else none
  | none => none

/-- A value produced by `decode_message` (`shared/redis_streams/utils.py`
lines 31-55): either the JSON parse of the field value or, when the value is
not JSON, the raw string. -/
inductive DVal where
  | j (v : JVal)
  | s (raw : String)

/-- `decode_message` over a wire entry. -/
def decodeMessage (d : List (String × String)) : List (String × DVal) :=
  d.map (fun kv =>
    (kv.1, match jsonLoads kv.2 with
           | some v => DVal.j v
           | none => DVal.s kv.2))

/-- Model of Python `str` on a decoded JSON value (used by the DLQ processor
only in its last-resort branch). -/
def jvalStrModel : JVal → String
  | .null => "None"
  | .bool b => if b then "True" else "False"
  | .num q => pyFloatStr q
  | .str s => s
  | .arr _ => "[...]"
  | .obj _ => String.singleton lbraceC ++ "..." ++ String.singleton rbraceC

/-- The DLQ processor's recovery of `original_data` from the decoded
`originalData` field (`services/dlq_processor/worker.py` lines 91-99):
a string is re-parsed as JSON, with fallback to `\x7b"raw": <string>\x7d`; a
decoded dict is used as-is; anything else is wrapped as `raw` after `str`. -/
def processorOriginalData : DVal → JVal
  | .s raw =>
    match jsonLoads raw with
    | some v => v
    | none => .obj [("raw", .str raw)]
  | .j v =>
    match v with
    | .obj o => .obj o
    | other => .obj [("raw", .str (jvalStrModel other))]

/-- Association-list lookup (Python `dict.get` with a default). -/
def alistGetD {α : Type} (l : List (String × α)) (k : String) (dflt : α) : α :=
  match l.find? (fun kv => kv.1 = k) with
  | some kv => kv.2
  | none => dflt

/-- End-to-end recovery of the original entry by the DLQ processor from a
wire DLQ entry: `decode_message`, then the `originalData` branch of
`handle_message`. -/
def dlqProcessorRecover (wire : List (String × String)) : JVal :=
  processorOriginalData
    (alistGetD (decodeMessage wire) "originalData"
      (DVal.s (String.singleton lbraceC ++ String.singleton rbraceC)))

/-! ## Stable sorting (model of Python `sorted(..., reverse=True)` and
`collections.Counter.most_common`) -/

/-- Insert `x` after every element `y` with `le y x` (so equal elements keep
their original relative order, as Python's stable sort does). -/
def insertStable {α : Type} (le : α → α → Bool) (x : α) : List α → List α
  | [] => [x]
  | y :: ys => if le y x then y :: insertStable le x ys else x :: y :: ys

/-- Stable insertion sort: the model of Python `sorted` with comparator
`le a b = " a may come before b "`. -/
def pySortStable {α : Type} (le : α → α → Bool) (l : List α) : List α :=
  l.foldl (fun acc x => insertStable le x acc) []

/-- Python `sorted(l, key=key, reverse=True)`. -/
def sortDescBy {α : Type} (key : α → ℚ) (l : List α) : List α :=
  pySortStable (fun a b => decide (key b ≤ key a)) l

/-- First-occurrence deduplication (the iteration order of a Python dict /
`Counter` built from a list). -/
def dedupFirst (l : List String) : List String :=
  l.foldl (fun acc x => if x ∈ acc then acc else acc ++ [x]) []

/-- `Counter(l).most_common(n)` restricted to the element column: the `n`
distinct elements of `l` with the highest multiplicity, ties broken by first
occurrence. -/
def mostCommon (n : Nat) (l : List String) : List String :=
  (sortDescBy (fun x => (l.count x : ℚ)) (dedupFirst l)).take n

/-! ## Python `round(x, 4)` (banker's rounding) -/

def roundHalfEven (q : ℚ) : ℤ :=
  let f := ⌊q⌋
  let r := q - f
  if r < 1 / 2 then f
  else if 1 / 2 < r then f + 1
  else if f % 2 = 0 then f else f + 1

def pyRound4 (q : ℚ) : ℚ := (roundHalfEven (q * 10000) : ℚ) / 10000

/-! ## Python string primitives (charwise models, exact for ASCII data) -/

/-- Python `str.lower` on an ASCII character. -/
def pyLowerChar (c : Char) : Char :=
  if 65 ≤ c.toNat ∧ c.toNat ≤ 90 then Char.ofNat (c.toNat + 32) else c

/-- Python `str.lower`. -/
def pyLower (s : String) : String := String.mk (s.data.map pyLowerChar)

/-- Python `str.replace("_", " ")`. -/
def pyUnderscoreToSpace (s : String) : String :=
  String.mk (s.data.map (fun c => if c = '_' then ' ' else c))

/-- Python `str.isspace`-style whitespace (the ASCII part). -/
def pyIsSpace (c : Char) : Bool := c = ' ' ∨ c = '\t' ∨ c = '\n' ∨ c = '\r'

/-- Python `str.strip()`. -/
def pyStrip (s : String) : String :=
  String.mk (((s.data.dropWhile pyIsSpace).reverse.dropWhile pyIsSpace).reverse)

/-- Python `max(a, b)` (keeps the first argument on ties). -/
def pyMaxQ (a b : ℚ) : ℚ := if a < b then b else a

/-- Python `min(a, b)` (keeps the first argument on ties). -/
def pyMinQ (a b : ℚ) : ℚ := if a ≤ b then a else b

/-! ## Face embedding normalization
(`shared/providers/huggingface/face.py`, `services/face_recognition/worker.py`) -/

/-- `EXPECTED_EMBEDDING_DIM = 1024` (both code sites hard-code it). -/
def EXPECTED_EMBEDDING_DIM : Nat := 1024

/-- `HFFaceProvider._normalize_embedding` (`face.py` lines 58-76): pad with
zeros or truncate to `EXPECTED_EMBEDDING_DIM`. -/
def providerNormalizeEmbedding (e : List ℚ) : List ℚ :=
  if e.length < EXPECTED_EMBEDDING_DIM then
    e ++ List.replicate (EXPECTED_EMBEDDING_DIM - e.length) 0
  else if EXPECTED_EMBEDDING_DIM < e.length then
    e.take EXPECTED_EMBEDDING_DIM
  else e

/-- The in-worker normalization of `handle_message`
(`services/face_recognition/worker.py` lines 216-236): identical pad/truncate
logic applied to each face before the result is published. -/
def workerNormalizeEmbedding (e : List ℚ) : List ℚ :=
  if e.length < EXPECTED_EMBEDDING_DIM then
    e ++ List.replicate (EXPECTED_EMBEDDING_DIM - e.length) 0
  else if EXPECTED_EMBEDDING_DIM < e.length then
    e.take EXPECTED_EMBEDDING_DIM
  else e

/-- A face as carried in the worker's `faces_list` (embedding as a JSON list
of floats). -/
structure Face where
  faceId : String
  bbox : List ℚ
  embedding : List ℚ
  confidence : ℚ
deriving Repr, DecidableEq

/-- The formatting loop of `handle_message` (`worker.py` lines 207-243):
every face is re-emitted with its embedding padded/truncated. -/
def formatFaces (faces : List Face) : List Face :=
  faces.map (fun f => { f with embedding := workerNormalizeEmbedding f.embedding })

/-! ## Post aggregator (`services/post_aggregator/worker.py`) -/

/-- The `facesDetected` value of an insight: a (nonempty, numeric) string or
an int.  A string carries its parsed integer value. -/
inductive FacesVal where
  | s (n : ℤ)
  | i (n : ℤ)
deriving Repr, DecidableEq

/-- Python truthiness of a present `facesDetected` value: a nonempty string
is truthy; an int is truthy iff nonzero. -/
def FacesVal.truthy : FacesVal → Bool
  | .s _ => true
  | .i n => n ≠ 0

def FacesVal.toInt : FacesVal → ℤ
  | .s n => n
  | .i n => n

/-- The `isSafe` value of an insight: a string or a bool. -/
inductive SafeVal where
  | s (v : String)
  | b (v : Bool)
deriving Repr, DecidableEq

def SafeVal.truthy : SafeVal → Bool
  | .s v => v ≠ ""
  | .b v => v

/-- `insight["isSafe"] == "true" if isinstance(..., str) else insight["isSafe"]`. -/
def SafeVal.interp : SafeVal → Bool
  | .s v => v = "true"
  | .b v => v

/-- The `moderationConfidence` value: a (nonempty, numeric) string or a
float, carrying its parsed rational value. -/
inductive ConfVal where
  | s (q : ℚ)
  | n (q : ℚ)
deriving Repr, DecidableEq

def ConfVal.truthy : ConfVal → Bool
  | .s _ => true
  | .n q => q ≠ 0

def ConfVal.toRat : ConfVal → ℚ
  | .s q => q
  | .n q => q

/-- One per-media insight as consumed by `PostAggregator.aggregate_insights`
(tags/scenes after their JSON parse; absent fields modelled as `[]`, `""` or
`none`, which the loop's truthiness checks skip exactly like Python does). -/
structure Insight where
  tags : List String := []
  scenes : List String := []
  caption : String := ""
  facesDetected : Option FacesVal := none
  isSafe : Option SafeVal := none
  moderationConfidence : Option ConfVal := none
deriving Repr, DecidableEq

/-- The result dict of `aggregate_insights`. -/
structure AggResult where
  mediaCount : Nat
  allAiTags : List String
  allAiScenes : List String
  aggregatedTags : List String
  aggregatedScenes : List String
  totalFaces : ℤ
  isSafe : Bool
  moderationConfidence : ℚ
  inferredEventType : String
  combinedCaption : String
  hasMultipleImages : Bool
deriving Repr, DecidableEq

/-- One row of `EVENT_PATTERNS` (`worker.py` lines 324-363); a missing
`required_tags` / `required_scenes` key behaves like the empty list. -/
structure EventPattern where
  name : String
  requiredTags : List String := []
  requiredScenes : List String := []
  minImages : Nat
deriving Repr, DecidableEq

def EVENT_PATTERNS : List EventPattern :=
  [⟨"beach_party", ["beach", "people"], ["beach", "outdoor"], 2⟩,
   ⟨"wedding", ["people", "formal"], ["indoor", "outdoor"], 3⟩,
   ⟨"meeting", ["people", "indoor"], ["office", "indoor"], 2⟩,
   ⟨"concert", ["people", "music"], ["indoor", "outdoor"], 2⟩,
   ⟨"vacation", [], ["beach", "mountains", "outdoor"], 3⟩,
   ⟨"restaurant", ["food", "people"], ["restaurant", "indoor"], 2⟩,
   ⟨"outdoor_activity", [], ["outdoor", "nature", "mountains", "forest"], 2⟩,
   ⟨"indoor_gathering", ["people"], ["indoor"], 3⟩]

/-- `PostAggregator._detect_event_type` (`worker.py` lines 482-525). -/
def detectEventType (tags scenes : List String) (numImages : Nat) : String :=
  let tagsSet := tags.map (fun t => pyLower t)
  let scenesSet := scenes.map (fun s => pyLower s)
  let scores := EVENT_PATTERNS.filterMap (fun p =>
    if numImages < p.minImages then none
    else
      let matchingTags := (p.requiredTags.map (fun t => pyLower t)).filter
        (fun t => t ∈ tagsSet)
      let matchingScenes := (p.requiredScenes.map (fun s => pyLower s)).filter
        (fun s => s ∈ scenesSet)
      let score : Nat := 2 * matchingTags.length + matchingScenes.length
      if 0 < score then some (p.name, score) else none)
  match scores with
  | [] => "general"
  | x :: xs => (xs.foldl (fun best y => if best.2 < y.2 then y else best) x).1

/-- `PostAggregator._generate_combined_caption` (`worker.py` lines 527-560)
with the optional LLM path disabled (`USE_LLM_CAPTIONS` defaults to false). -/
def generateCombinedCaption (captions tags scenes : List String) : String :=
  match captions with
  | [] =>
    if tags ≠ [] ∧ scenes ≠ [] then
      "A post featuring " ++ String.intercalate ", " (tags.take 3)
        ++ " in a " ++ scenes.headD "" ++ " setting"
    else if tags ≠ [] then
      "A post about " ++ String.intercalate ", " (tags.take 3)
    else if scenes ≠ [] then
      "A " ++ scenes.headD "" ++ " scene"
    else "A visual post"
  | [c] => c
  | _ => String.intercalate " " (captions.take 3)

/-- `PostAggregator._empty_aggregation` (`worker.py` lines 562-576). -/
def emptyAggregation : AggResult :=
  { mediaCount := 0
    allAiTags := []
    allAiScenes := []
    aggregatedTags := []
    aggregatedScenes := []
    totalFaces := 0
    isSafe := true
    moderationConfidence := 1
    inferredEventType := "general"
    combinedCaption := ""
    hasMultipleImages := false }

/-- The accumulator of the collection loop of `aggregate_insights`. -/
structure AggAcc where
  allTags : List String
  allScenes : List String
  allCaptions : List String
  totalFaces : ℤ
  isSafe : Bool
  minModerationConfidence : ℚ
deriving Repr, DecidableEq

/-- One iteration of the loop of `aggregate_insights` (`worker.py` lines
424-451).  Every `if insight.get(...)` is a Python truthiness test. -/
def aggStep (acc : AggAcc) (i : Insight) : AggAcc :=
  let acc := { acc with allTags := acc.allTags ++ i.tags }
  let acc := { acc with allScenes := acc.allScenes ++ i.scenes }
  let acc := if i.caption ≠ "" then
      { acc with allCaptions := acc.allCaptions ++ [i.caption] } else acc
  let acc := match i.facesDetected with
    | some fv => if fv.truthy then { acc with totalFaces := acc.totalFaces + fv.toInt } else acc
    | none => acc
  let acc := match i.isSafe with
    | some sv => if sv.truthy then { acc with isSafe := acc.isSafe && sv.interp } else acc
    | none => acc
  let acc := match i.moderationConfidence with
    | some cv => if cv.truthy then
        { acc with minModerationConfidence := pyMinQ acc.minModerationConfidence cv.toRat }
      else acc
    | none => acc
  acc

/-- `PostAggregator.aggregate_insights` (`worker.py` lines 403-480). -/
def aggregateInsights (mediaInsights : List Insight) : AggResult :=
  match mediaInsights with
  | [] => emptyAggregation
  | _ =>
    let acc := mediaInsights.foldl aggStep ⟨[], [], [], 0, true, 1⟩
    let topTags := mostCommon 10 acc.allTags
    let topScenes := mostCommon 5 acc.allScenes
    { mediaCount := mediaInsights.length
      allAiTags := acc.allTags
      allAiScenes := acc.allScenes
      aggregatedTags := topTags
      aggregatedScenes := topScenes
      totalFaces := acc.totalFaces
      isSafe := acc.isSafe
      moderationConfidence := acc.minModerationConfidence
      inferredEventType := detectEventType topTags topScenes mediaInsights.length
      combinedCaption := generateCombinedCaption acc.allCaptions topTags topScenes
      hasMultipleImages := decide (1 < mediaInsights.length) }

/-- The face count an insight contributes to `totalFaces` (a falsy
`facesDetected` is skipped by the loop, which is the same as adding `0`). -/
def facesCount (i : Insight) : ℤ :=
  match i.facesDetected with
  | some fv => if fv.truthy then fv.toInt else 0
  | none => 0

/-- The safety verdict an insight effectively contributes to the `isSafe`
conjunction: a falsy `isSafe` value (absent, empty string, or the boolean
`False`) is skipped by the loop and hence counts as safe. -/
def effectiveSafe (i : Insight) : Bool :=
  match i.isSafe with
  | some sv => if sv.truthy then sv.interp else true
  | none => true

/-- The truthy moderation-confidence values of a list of insights. -/
def truthyConfs (l : List Insight) : List ℚ :=
  l.filterMap (fun i =>
    match i.moderationConfidence with
    | some cv => if cv.truthy then some cv.toRat else none
    | none => none)

/-- The running-minimum update one insight applies to
`min_moderation_confidence`. -/
def confApply (m : ℚ) (i : Insight) : ℚ :=
  match i.moderationConfidence with
  | some cv => if cv.truthy then pyMinQ m cv.toRat else m
  | none => m

/-- `json.dumps` of a list of strings (default separators). -/
def jsonDumpsStrList (l : List String) : String :=
  "[" ++ String.intercalate ", "
    (l.map (fun s => String.singleton dquoteC ++ s ++ String.singleton dquoteC)) ++ "]"

/-- The `result_message` dict built by the aggregator's `handle_message`
(`worker.py` lines 652-675); empty lists are serialized as `"[]"` by the
`if x else "[]"` special case. -/
def buildResultMessage (postId : Nat) (agg : AggResult)
    (timestamp correlationId : String) : List (String × String) :=
  let tagsJson := fun (l : List String) => if l ≠ [] then jsonDumpsStrList l else "[]"
  [("postId", toString postId),
   ("mediaCount", toString agg.mediaCount),
   ("allAiTags", tagsJson agg.allAiTags),
   ("allAiScenes", tagsJson agg.allAiScenes),
   ("aggregatedTags", tagsJson agg.aggregatedTags),
   ("aggregatedScenes", tagsJson agg.aggregatedScenes),
   ("totalFaces", toString agg.totalFaces),
   ("isSafe", if agg.isSafe then "true" else "false"),
   ("moderationConfidence", pyFloatStr agg.moderationConfidence),
   ("inferredEventType", agg.inferredEventType),
   ("combinedCaption", agg.combinedCaption),
   ("hasMultipleImages", if agg.hasMultipleImages then "true" else "false"),
   ("timestamp", timestamp),
   ("correlationId", correlationId),
   ("version", "1")]

/-- The aggregator's `handle_message` (`worker.py` lines 579-689), with the
stream-collection step abstracted into the `collected` argument: an invalid
(zero) `postId` returns without publishing; otherwise the aggregation of the
collected insights is published. -/
def aggregatorHandleMessage (postId : Nat) (collected : List Insight)
    (timestamp correlationId : String) : Option (List (String × String)) :=
  if postId = 0 then none
  else some (buildResultMessage postId (aggregateInsights collected) timestamp correlationId)

/-! ## Tagging provider (`shared/providers/huggingface/tagger.py`) -/

/-- The result of `HFTaggerProvider.tag`. -/
structure TaggingResult where
  tags : List String
  scores : List (String × ℚ)
deriving Repr, DecidableEq

/-- `HFTaggerProvider.tag` (`tagger.py` lines 115-137).  `apiScores` is the
provider score dict in insertion order. -/
def hfTag (apiScores : List (String × ℚ)) (topN : Nat) (threshold : ℚ) :
    TaggingResult :=
  let filtered := apiScores.filter (fun ts => threshold < ts.2)
  let sortedTags := (sortDescBy (fun ts => ts.2) filtered).take topN
  let sortedTags :=
    if sortedTags = [] ∧ apiScores ≠ [] then
      (sortDescBy (fun ts => ts.2) apiScores).take topN
    else sortedTags
  { tags := sortedTags.map Prod.fst
    scores := sortedTags.map (fun ts => (ts.1, pyRound4 ts.2)) }

/-! ## Moderation provider (`shared/providers/huggingface/moderation.py`) -/

def NSFW_LABELS : List String := ["nsfw", "unsafe", "porn", "hentai", "sexy"]

def SAFE_LABELS : List String := ["normal", "safe", "sfw", "neutral", "drawings"]

/-- `_UNSAFE_THRESHOLD = 0.45`. -/
def UNSAFE_THRESHOLD : ℚ := 45 / 100

/-- `_normalize_label` (`moderation.py` lines 33-34): lowercase, replace
underscores with spaces, strip surrounding whitespace. -/
def normalizeLabel (s : String) : String :=
  pyStrip (pyUnderscoreToSpace (pyLower s))

/-- `normalized.get(k, 0.0)` where `normalized` is the dict comprehension
`\x7b_normalize_label(k): v ...\x7d` (a later duplicate key overwrites an
earlier one, hence the last matching entry wins). -/
def normGet (apiScores : List (String × ℚ)) (k : String) : ℚ :=
  match ((apiScores.map (fun kv => (normalizeLabel kv.1, kv.2))).reverse).find?
      (fun kv => kv.1 = k) with
  | some kv => kv.2
  | none => 0

/-- `max(... for k in LABELS)` with `default=0.0` (the default only applies
to an empty label set). -/
def listMaxD (l : List ℚ) (dflt : ℚ) : ℚ :=
  match l with
  | [] => dflt
  | x :: xs => xs.foldl pyMaxQ x

def nsfwScore (apiScores : List (String × ℚ)) : ℚ :=
  listMaxD (NSFW_LABELS.map (normGet apiScores)) 0

def safeScore (apiScores : List (String × ℚ)) : ℚ :=
  listMaxD (SAFE_LABELS.map (normGet apiScores)) 0

/-- The result of `HFModerationProvider.analyze`. -/
structure ModerationOutcome where
  is_safe : Bool
  confidence : ℚ
  top_label : String
deriving Repr, DecidableEq

/-- `HFModerationProvider.analyze` (`moderation.py` lines 117-145). -/
def hfAnalyze (apiScores : List (String × ℚ)) : ModerationOutcome :=
  let nsfw := nsfwScore apiScores
  let safe := safeScore apiScores
  let isSafe := decide (nsfw < UNSAFE_THRESHOLD) && decide (nsfw < safe)
  match sortDescBy (fun kv => kv.2) apiScores with
  | [] => { is_safe := isSafe, confidence := 0, top_label := "unknown" }
  | top :: _ => { is_safe := isSafe, confidence := pyRound4 top.2, top_label := top.1 }

/-- Modelled from the spec's words (§4.3): label normalization with only
lowercasing and underscore→space replacement — no whitespace strip.  Used to
compare the spec's `is_safe` law with the implementation's. -/
def specNormalizeLabel (s : String) : String :=
  pyUnderscoreToSpace (pyLower s)

def specNormGet (apiScores : List (String × ℚ)) (k : String) : ℚ :=
  match ((apiScores.map (fun kv => (specNormalizeLabel kv.1, kv.2))).reverse).find?
      (fun kv => kv.1 = k) with
  | some kv => kv.2
  | none => 0

def specNsfwScore (apiScores : List (String × ℚ)) : ℚ :=
  listMaxD (NSFW_LABELS.map (specNormGet apiScores)) 0

def specSafeScore (apiScores : List (String × ℚ)) : ℚ :=
  listMaxD (SAFE_LABELS.map (specNormGet apiScores)) 0

/-- The claim's `is_safe` law: `nsfw_score < 0.45 ∧ safe_score > nsfw_score`
with the scores as the spec defines them. -/
def specIsSafe (apiScores : List (String × ℚ)) : Bool :=
  decide (specNsfwScore apiScores < UNSAFE_THRESHOLD)
    && decide (specNsfwScore apiScores < specSafeScore apiScores)

/-! ## Indexing worker batch loop (`services/es_sync/worker.py`, `main`) -/

/-- The mutable batching state of `main` (`worker.py` lines 744-745):
the action buffer and `batch_start`. -/
structure EsBatchState where
  batchActions : List Nat
  batchStart : ℚ
deriving Repr, DecidableEq

/-- A recorded `_flush_batch` call: the wall-clock time and the bulk-written
actions. -/
structure FlushEvent where
  time : ℚ
  actions : List Nat
deriving Repr, DecidableEq

/-- One `message_handler` invocation (`worker.py` lines 762-799) at time
`now`.  `action = none` models a message rejected by the validation early
returns (no append, and no flush check is reached); `action = some a`
models a queued index/delete action.  Returns the new state and the flush,
if one happened. -/
def esHandleMessage (batchSize : Nat) (batchTimeout : ℚ) (st : EsBatchState)
    (now : ℚ) (action : Option Nat) : EsBatchState × Option FlushEvent :=
  match action with
  | none => (st, none)
  | some a =>
    let batch := st.batchActions ++ [a]
    if batchSize ≤ batch.length then
      (⟨[], now⟩, some ⟨now, batch⟩)
    else if batchTimeout ≤ now - st.batchStart then
      (⟨[], now⟩, some ⟨now, batch⟩)
    else
      (⟨batch, st.batchStart⟩, none)

/-- A run of the consume loop over a sequence of timed messages: the handler
is invoked once per arriving message (there is no other occasion on which the
buffer is examined before shutdown). -/
def esRun (batchSize : Nat) (batchTimeout : ℚ) (st : EsBatchState)
    (events : List (ℚ × Option Nat)) : EsBatchState × List FlushEvent :=
  events.foldl
    (fun (acc : EsBatchState × List FlushEvent) ev =>
      let r := esHandleMessage batchSize batchTimeout acc.1 ev.1 ev.2
      (r.1, acc.2 ++ (match r.2 with | some f => [f] | none => [])))
    (st, [])

/-! ## Circuit breaker (`shared/utils/circuit_breaker.py`) -/

/-- `CircuitState`; `opened` stands for the source's `OPEN`. -/
inductive CircuitState where
  | closed
  | opened
  | halfOpen
deriving Repr, DecidableEq

/-- The fields of `CircuitBreaker` (times as rationals in seconds). -/
structure Breaker where
  state : CircuitState
  failureCount : Nat
  successCount : Nat
  lastFailureTime : Option ℚ
  halfOpenCalls : Nat
  failureThreshold : Nat
  recoveryTimeout : ℚ
  halfOpenMaxCalls : Nat
deriving Repr, DecidableEq

/-- `CircuitBreaker.__init__` with the default parameters
(`failure_threshold=5`, `recovery_timeout=60.0`, `half_open_max_calls=1`). -/
def breakerInit : Breaker :=
  { state := .closed
    failureCount := 0
    successCount := 0
    lastFailureTime := none
    halfOpenCalls := 0
    failureThreshold := 5
    recoveryTimeout := 60
    halfOpenMaxCalls := 1 }

/-- The `state` property (`circuit_breaker.py` lines 51-59): reading the
state while `OPEN` flips it to `HALF_OPEN` once `recovery_timeout` has
elapsed since the last failure (`if self._last_failure_time and ...` is a
float truthiness test, hence the `t ≠ 0`). -/
def lastFailureReady (cb : Breaker) (now : ℚ) : Bool :=
  match cb.lastFailureTime with
  | some t => decide (t ≠ 0) && decide (cb.recoveryTimeout ≤ now - t)
  | none => false

def breakerReadState (cb : Breaker) (now : ℚ) : CircuitState × Breaker :=
  if cb.state = .opened ∧ lastFailureReady cb now then
    (.halfOpen, { cb with state := .halfOpen, halfOpenCalls := 0 })
  else (cb.state, cb)

/-- `CircuitBreaker._on_success` (lines 85-93). -/
def breakerOnSuccess (cb : Breaker) : Breaker :=
  let cb :=
    if cb.state = .halfOpen then
      { cb with state := .closed, failureCount := 0, successCount := 0 }
    else cb
  { cb with failureCount := 0, successCount := cb.successCount + 1 }

/-- `CircuitBreaker._on_failure` (lines 95-108). -/
def breakerOnFailure (cb : Breaker) (now : ℚ) : Breaker :=
  let cb1 := { cb with failureCount := cb.failureCount + 1, lastFailureTime := some now }
  if cb.state = .halfOpen then { cb1 with state := .opened }
  else if cb1.failureThreshold ≤ cb1.failureCount then { cb1 with state := .opened }
  else cb1

/-- The observable outcome of `CircuitBreaker.call`. -/
inductive CallOutcome where
  /-- `CircuitOpenError`: the wrapped function was NOT invoked -/
  | rejected
  /-- the wrapped function was invoked and returned -/
  | succeeded
  /-- the wrapped function was invoked and raised -/
  | failed
deriving Repr, DecidableEq

/-- `CircuitBreaker.call` (lines 61-83) at time `now`; `funcOk` tells
whether the wrapped function would return normally. -/
def breakerCall (cb : Breaker) (now : ℚ) (funcOk : Bool) : CallOutcome × Breaker :=
  let r := breakerReadState cb now
  let current := r.1
  let cb := r.2
  if current = .opened then (.rejected, cb)
  else
    let probe : Option Breaker :=
      if current = .halfOpen then
        if cb.halfOpenMaxCalls ≤ cb.halfOpenCalls then none
        else some { cb with halfOpenCalls := cb.halfOpenCalls + 1 }
      else some cb
    match probe with
    | none => (.rejected, cb)
    | some cb2 =>
      if funcOk then (.succeeded, breakerOnSuccess cb2)
      else (.failed, breakerOnFailure cb2 now)

/-! # Helper lemmas -/

theorem filter_ne_of_not_mem {a : MsgId} {l : List MsgId} (h : a ∉ l) :
    l.filter (fun x => x ≠ a) = l := by
  apply List.filter_eq_self.mpr
  intro b hb
  simp only [decide_eq_true_eq]
  exact fun hba => h (hba ▸ hb)

theorem insertStable_perm {α : Type} (le : α → α → Bool) (x : α) (l : List α) :
    (insertStable le x l).Perm (x :: l) := by
  induction l with
  | nil => simp [insertStable]
  | cons y ys ih =>
    simp only [insertStable]
    split
    · exact (ih.cons y).trans (List.Perm.swap x y ys)
    · exact List.Perm.refl _

theorem mem_insertStable {α : Type} (le : α → α → Bool) (x a : α) (l : List α) :
    a ∈ insertStable le x l ↔ a = x ∨ a ∈ l := by
  rw [(insertStable_perm le x l).mem_iff]
  simp

theorem foldl_insertStable_perm {α : Type} (le : α → α → Bool) (l acc : List α) :
    (l.foldl (fun acc x => insertStable le x acc) acc).Perm (acc ++ l) := by
  induction l generalizing acc with
  | nil => simp
  | cons x xs ih =>
    simp only [List.foldl_cons]
    have h1 := ih (insertStable le x acc)
    have h2 : (insertStable le x acc ++ xs).Perm ((x :: acc) ++ xs) :=
      (insertStable_perm le x acc).append_right xs
    have h3 : ((x :: acc) ++ xs).Perm (acc ++ x :: xs) := List.perm_middle.symm
    exact (h1.trans h2).trans h3

theorem pySortStable_perm {α : Type} (le : α → α → Bool) (l : List α) :
    (pySortStable le l).Perm l := by
  simpa using foldl_insertStable_perm le l []

theorem pairwise_insertStable {α : Type} {le : α → α → Bool}
    (total : ∀ a b, le a b = true ∨ le b a = true)
    (htrans : ∀ a b c, le a b = true → le b c = true → le a c = true)
    (x : α) {l : List α} (h : l.Pairwise (fun a b => le a b = true)) :
    (insertStable le x l).Pairwise (fun a b => le a b = true) := by
  induction l with
  | nil => simp [insertStable]
  | cons y ys ih =>
    rcases List.pairwise_cons.mp h with ⟨hy, hys⟩
    simp only [insertStable]
    split
    · rename_i hyx
      refine List.pairwise_cons.mpr ⟨?_, ih hys⟩
      intro z hz
      rcases (mem_insertStable le x z ys).mp hz with rfl | hz
      · exact hyx
      · exact hy z hz
    · rename_i hyx
      have hxy : le x y = true := (total x y).resolve_right (by simpa using hyx)
      refine List.pairwise_cons.mpr ⟨?_, h⟩
      intro z hz
      rcases List.mem_cons.mp hz with rfl | hz
      · exact hxy
      · exact htrans x y z hxy (hy z hz)

theorem pairwise_pySortStable {α : Type} {le : α → α → Bool}
    (total : ∀ a b, le a b = true ∨ le b a = true)
    (htrans : ∀ a b c, le a b = true → le b c = true → le a c = true)
    (l : List α) :
    (pySortStable le l).Pairwise (fun a b => le a b = true) := by
  suffices h : ∀ acc : List α, acc.Pairwise (fun a b => le a b = true) →
      (l.foldl (fun acc x => insertStable le x acc) acc).Pairwise
        (fun a b => le a b = true) by
    exact h [] List.Pairwise.nil
  induction l with
  | nil => intro acc hacc; exact hacc
  | cons x xs ih =>
    intro acc hacc
    exact ih _ (pairwise_insertStable total htrans x hacc)

theorem pairwise_take_drop {α : Type} {R : α → α → Prop} {l : List α}
    (h : l.Pairwise R) (n : Nat) :
    ∀ x ∈ l.take n, ∀ y ∈ l.drop n, R x y := by
  have h' : (l.take n ++ l.drop n).Pairwise R := by
    rw [List.take_append_drop]; exact h
  exact (List.pairwise_append.mp h').2.2

theorem pairwise_sortDescBy {α : Type} (key : α → ℚ) (l : List α) :
    (sortDescBy key l).Pairwise (fun a b => key b ≤ key a) := by
  have h := @pairwise_pySortStable α (fun a b => decide (key b ≤ key a))
    (fun a b => by by_cases h : key b ≤ key a
                   · left; simpa using h
                   · right; simpa using le_of_not_le h)
    (fun a b c hab hbc => by
      simp only [decide_eq_true_eq] at *
      exact hbc.trans hab)
    l
  refine h.imp ?_
  intro a b hab
  simpa using hab

theorem sortDescBy_perm {α : Type} (key : α → ℚ) (l : List α) :
    (sortDescBy key l).Perm l := pySortStable_perm _ l

theorem mem_dedupFirst {a : String} {l : List String} :
    a ∈ dedupFirst l ↔ a ∈ l := by
  suffices h : ∀ acc : List String,
      a ∈ l.foldl (fun acc x => if x ∈ acc then acc else acc ++ [x]) acc
        ↔ a ∈ acc ∨ a ∈ l by
    simpa using h []
  induction l with
  | nil => simp [dedupFirst]
  | cons x xs ih =>
    intro acc
    simp only [List.foldl_cons]
    by_cases hx : x ∈ acc
    · rw [if_pos hx, ih acc]
      simp only [List.mem_cons]
      constructor
      · rintro (h | h)
        · exact Or.inl h
        · exact Or.inr (Or.inr h)
      · rintro (h | rfl | h)
        · exact Or.inl h
        · exact Or.inl hx
        · exact Or.inr h
    · rw [if_neg hx, ih (acc ++ [x])]
      simp only [List.mem_append, List.mem_singleton, List.mem_cons]
      tauto

theorem providerNormalizeEmbedding_length (e : List ℚ) :
    (providerNormalizeEmbedding e).length = EXPECTED_EMBEDDING_DIM := by
  unfold providerNormalizeEmbedding
  split
  · rename_i h
    simp only [List.length_append, List.length_replicate]
    omega
  · split
    · rename_i h
      simp only [List.length_take]
      omega
    · omega

theorem workerNormalizeEmbedding_eq :
    workerNormalizeEmbedding = providerNormalizeEmbedding := rfl

/-! # Claim theorems -/

/-- C4: for every face contained in a result emitted on the
face-detection-results stream, the face's embedding has length exactly
`EXPECTED_EMBEDDING_DIM` (1024); embeddings shorter than the dimension are
padded with zeros and longer ones are truncated before emission, both in the
provider's `_normalize_embedding` and in the worker's formatting loop. -/
theorem C4_embedding_dimension :
    (∀ e : List ℚ,
       (providerNormalizeEmbedding e).length = EXPECTED_EMBEDDING_DIM ∧
       (e.length < EXPECTED_EMBEDDING_DIM →
          providerNormalizeEmbedding e
            = e ++ List.replicate (EXPECTED_EMBEDDING_DIM - e.length) 0) ∧
       (EXPECTED_EMBEDDING_DIM < e.length →
          providerNormalizeEmbedding e = e.take EXPECTED_EMBEDDING_DIM)) ∧
    (∀ faces : List Face, ∀ f ∈ formatFaces faces,
       f.embedding.length = EXPECTED_EMBEDDING_DIM ∧
       ∃ g ∈ faces, f = { g with embedding := workerNormalizeEmbedding g.embedding }) := by
  constructor
  · intro e
    refine ⟨providerNormalizeEmbedding_length e, ?_, ?_⟩
    · intro h
      unfold providerNormalizeEmbedding
      rw [if_pos h]
    · intro h
      unfold providerNormalizeEmbedding
      rw [if_neg (by omega), if_pos h]
  · intro faces f hf
    rcases List.mem_map.mp hf with ⟨g, hg, rfl⟩
    refine ⟨?_, g, hg, rfl⟩
    show (workerNormalizeEmbedding g.embedding).length = EXPECTED_EMBEDDING_DIM
    rw [workerNormalizeEmbedding_eq]
    exact providerNormalizeEmbedding_length g.embedding

/-- Witness for C4 at a concrete 3-float embedding. -/
theorem C4_embedding_dimension_witness :
    ({ faceId := "a", bbox := [], embedding := workerNormalizeEmbedding [1, 2, 3],
       confidence := 1 } : Face)
        ∈ formatFaces [{ faceId := "a", bbox := [], embedding := [1, 2, 3], confidence := 1 }] ∧
    (workerNormalizeEmbedding [1, 2, 3]).length = EXPECTED_EMBEDDING_DIM := by
  have hmem :
      ({ faceId := "a", bbox := [], embedding := workerNormalizeEmbedding [1, 2, 3],
         confidence := 1 } : Face)
        ∈ formatFaces [{ faceId := "a", bbox := [], embedding := [1, 2, 3], confidence := 1 }] := by
    simp [formatFaces]
  exact ⟨hmem, (C4_embedding_dimension.2 _ _ hmem).1⟩

theorem breakerReadState_closed (cb : Breaker) (now : ℚ) (h : cb.state = .closed) :
    breakerReadState cb now = (.closed, cb) := by
  unfold breakerReadState
  rw [if_neg, h]
  rintro ⟨h1, _⟩
  rw [h] at h1
  exact absurd h1 (by decide)

theorem breakerReadState_halfOpen (cb : Breaker) (now : ℚ) (h : cb.state = .halfOpen) :
    breakerReadState cb now = (.halfOpen, cb) := by
  unfold breakerReadState
  rw [if_neg, h]
  rintro ⟨h1, _⟩
  rw [h] at h1
  exact absurd h1 (by decide)

theorem breakerReadState_opened_notReady (cb : Breaker) (now : ℚ)
    (h : cb.state = .opened) (hr : lastFailureReady cb now = false) :
    breakerReadState cb now = (.opened, cb) := by
  unfold breakerReadState
  rw [if_neg, h]
  rintro ⟨_, h2⟩
  rw [hr] at h2
  exact absurd h2 (by decide)

theorem breakerReadState_opened_ready (cb : Breaker) (now : ℚ)
    (h : cb.state = .opened) (hr : lastFailureReady cb now = true) :
    breakerReadState cb now
      = (.halfOpen, { cb with state := .halfOpen, halfOpenCalls := 0 }) := by
  unfold breakerReadState
  rw [if_pos ⟨h, hr⟩]

theorem breakerCall_closed_true (cb : Breaker) (now : ℚ) (h : cb.state = .closed) :
    breakerCall cb now true = (.succeeded, breakerOnSuccess cb) := by
  unfold breakerCall
  rw [breakerReadState_closed cb now h]
  simp

theorem breakerCall_closed_false (cb : Breaker) (now : ℚ) (h : cb.state = .closed) :
    breakerCall cb now false = (.failed, breakerOnFailure cb now) := by
  unfold breakerCall
  rw [breakerReadState_closed cb now h]
  simp

theorem breakerCall_probe_true (cb : Breaker) (now : ℚ)
    (h : cb.state = .halfOpen) (hc : cb.halfOpenCalls < cb.halfOpenMaxCalls) :
    breakerCall cb now true
      = (.succeeded, breakerOnSuccess { cb with halfOpenCalls := cb.halfOpenCalls + 1 }) := by
  unfold breakerCall
  rw [breakerReadState_halfOpen cb now h]
  simp [not_le.mpr hc]

theorem breakerCall_probe_false (cb : Breaker) (now : ℚ)
    (h : cb.state = .halfOpen) (hc : cb.halfOpenCalls < cb.halfOpenMaxCalls) :
    breakerCall cb now false
      = (.failed, breakerOnFailure { cb with halfOpenCalls := cb.halfOpenCalls + 1 } now) := by
  unfold breakerCall
  rw [breakerReadState_halfOpen cb now h]
  simp [not_le.mpr hc]

theorem breakerOnSuccess_notHalf (cb : Breaker) (h : cb.state ≠ .halfOpen) :
    breakerOnSuccess cb
      = { cb with failureCount := 0, successCount := cb.successCount + 1 } := by
  unfold breakerOnSuccess
  rw [if_neg h]

theorem breakerOnSuccess_half (cb : Breaker) (h : cb.state = .halfOpen) :
    breakerOnSuccess cb
      = { cb with state := .closed, failureCount := 0, successCount := 1 } := by
  unfold breakerOnSuccess
  rw [if_pos h]

theorem breakerOnFailure_half (cb : Breaker) (now : ℚ) (h : cb.state = .halfOpen) :
    breakerOnFailure cb now
      = { cb with state := .opened, failureCount := cb.failureCount + 1, lastFailureTime := some now } := by
  unfold breakerOnFailure
  rw [if_pos h]

theorem breakerOnFailure_notHalf (cb : Breaker) (now : ℚ) (h : cb.state ≠ .halfOpen) :
    breakerOnFailure cb now
      = if cb.failureThreshold ≤ cb.failureCount + 1 then
          { cb with state := .opened, failureCount := cb.failureCount + 1, lastFailureTime := some now }
        else
          { cb with failureCount := cb.failureCount + 1, lastFailureTime := some now } := by
  unfold breakerOnFailure
  rw [if_neg h]

/-- C9: the circuit breaker moves `CLOSED → OPEN` exactly when the
consecutive-failure count reaches `failure_threshold` (a success resets the
count); while `OPEN` it rejects calls without invoking the wrapped function
until `recovery_timeout` has elapsed since the last failure, after which it
reads as `HALF_OPEN` and allows a probe; a `HALF_OPEN` probe's success closes
the circuit and its failure reopens it, and further `HALF_OPEN` calls beyond
the probe budget are rejected. -/
theorem C9_circuit_breaker :
    (∀ (cb : Breaker) (now : ℚ), cb.state = .closed →
       (breakerCall cb now false).1 = .failed ∧
       (breakerCall cb now false).2.failureCount = cb.failureCount + 1 ∧
       ((breakerCall cb now false).2.state = .opened
          ↔ cb.failureThreshold ≤ cb.failureCount + 1)) ∧
    (∀ (cb : Breaker) (now : ℚ), cb.state = .closed →
       (breakerCall cb now true).1 = .succeeded ∧
       (breakerCall cb now true).2.state = .closed ∧
       (breakerCall cb now true).2.failureCount = 0) ∧
    (∀ (cb : Breaker) (now t : ℚ) (ok : Bool), cb.state = .opened →
       cb.lastFailureTime = some t → t ≠ 0 → now - t < cb.recoveryTimeout →
       breakerCall cb now ok = (.rejected, cb)) ∧
    (∀ (cb : Breaker) (now t : ℚ), cb.state = .opened →
       cb.lastFailureTime = some t → t ≠ 0 → cb.recoveryTimeout ≤ now - t →
       0 < cb.halfOpenMaxCalls →
       (breakerReadState cb now).1 = .halfOpen ∧
       (breakerCall cb now true).1 = .succeeded ∧
       (breakerCall cb now true).2.state = .closed ∧
       (breakerCall cb now false).1 = .failed ∧
       (breakerCall cb now false).2.state = .opened) ∧
    (∀ (cb : Breaker) (now : ℚ), cb.state = .halfOpen →
       cb.halfOpenCalls < cb.halfOpenMaxCalls →
       (breakerCall cb now true).1 = .succeeded ∧
       (breakerCall cb now true).2.state = .closed ∧
       (breakerCall cb now true).2.failureCount = 0 ∧
       (breakerCall cb now false).1 = .failed ∧
       (breakerCall cb now false).2.state = .opened) ∧
    (∀ (cb : Breaker) (now : ℚ) (ok : Bool), cb.state = .halfOpen →
       cb.halfOpenMaxCalls ≤ cb.halfOpenCalls →
       (breakerCall cb now ok).1 = .rejected) := by
  have hcne : ∀ cb : Breaker, cb.state = .closed → cb.state ≠ .halfOpen := by
    intro cb h
    rw [h]
    decide
  refine ⟨?_, ?_, ?_, ?_, ?_, ?_⟩
  · intro cb now hclosed
    rw [breakerCall_closed_false cb now hclosed,
        breakerOnFailure_notHalf cb now (hcne cb hclosed)]
    refine ⟨rfl, ?_, ?_⟩
    · split <;> rfl
    · split
      · rename_i hle
        simpa using hle
      · rename_i hle
        simp only [hclosed]
        constructor
        · intro hf
          exact absurd hf (by decide)
        · intro h
          exact absurd h hle
  · intro cb now hclosed
    rw [breakerCall_closed_true cb now hclosed,
        breakerOnSuccess_notHalf cb (hcne cb hclosed)]
    exact ⟨rfl, hclosed, rfl⟩
  · intro cb now t ok hopen hlast ht hlt
    have hready : lastFailureReady cb now = false := by
      simp [lastFailureReady, hlast, ht, not_le.mpr hlt]
    unfold breakerCall
    rw [breakerReadState_opened_notReady cb now hopen hready]
    simp
  · intro cb now t hopen hlast ht hle hmax
    have hready : lastFailureReady cb now = true := by
      simp [lastFailureReady, hlast, ht, hle]
    have hread := breakerReadState_opened_ready cb now hopen hready
    have hcall : ∀ ok : Bool, breakerCall cb now ok
        = breakerCall { cb with state := .halfOpen, halfOpenCalls := 0 } now ok := by
      intro ok
      unfold breakerCall
      rw [hread, breakerReadState_halfOpen _ now rfl]
    refine ⟨by rw [hread], ?_, ?_, ?_, ?_⟩
    · rw [hcall true, breakerCall_probe_true _ now rfl (by simpa using hmax)]
    · rw [hcall true, breakerCall_probe_true _ now rfl (by simpa using hmax)]
      simp [breakerOnSuccess]
    · rw [hcall false, breakerCall_probe_false _ now rfl (by simpa using hmax)]
    · rw [hcall false, breakerCall_probe_false _ now rfl (by simpa using hmax)]
      simp [breakerOnFailure]
  · intro cb now hhalf hcalls
    refine ⟨?_, ?_, ?_, ?_, ?_⟩
    · rw [breakerCall_probe_true cb now hhalf hcalls]
    · rw [breakerCall_probe_true cb now hhalf hcalls]
      simp [breakerOnSuccess, hhalf]
    · rw [breakerCall_probe_true cb now hhalf hcalls]
      simp [breakerOnSuccess, hhalf]
    · rw [breakerCall_probe_false cb now hhalf hcalls]
    · rw [breakerCall_probe_false cb now hhalf hcalls]
      simp [breakerOnFailure, hhalf]
  · intro cb now ok hhalf hcalls
    unfold breakerCall
    rw [breakerReadState_halfOpen cb now hhalf]
    simp [hhalf, hcalls]

/-- Witness for C9: every transition of the claim exercised on concrete
breaker states. -/
theorem C9_circuit_breaker_witness :
    (breakerCall breakerInit 0 false).1 = .failed ∧
    (breakerCall breakerInit 0 true).1 = .succeeded ∧
    (breakerCall { breakerInit with state := .opened, lastFailureTime := some 10 } 30 true).1
      = .rejected ∧
    (breakerReadState { breakerInit with state := .opened, lastFailureTime := some 10 } 100).1
      = .halfOpen ∧
    (breakerCall { breakerInit with state := .halfOpen } 0 true).1 = .succeeded ∧
    (breakerCall { breakerInit with state := .halfOpen, halfOpenCalls := 1 } 0 true).1
      = .rejected := by
  obtain ⟨h1, h2, h3, h4, h5, h6⟩ := C9_circuit_breaker
  refine ⟨(h1 breakerInit 0 rfl).1, (h2 breakerInit 0 rfl).1, ?_, ?_, ?_, ?_⟩
  · have := h3 { breakerInit with state := .opened, lastFailureTime := some 10 } 30 10 true
      rfl rfl (by norm_num) (by norm_num [breakerInit])
    exact congrArg Prod.fst this
  · exact (h4 { breakerInit with state := .opened, lastFailureTime := some 10 } 100 10
      rfl rfl (by norm_num) (by norm_num [breakerInit]) (by norm_num [breakerInit])).1
  · exact (h5 { breakerInit with state := .halfOpen } 0 rfl (by norm_num [breakerInit])).1
  · exact h6 { breakerInit with state := .halfOpen, halfOpenCalls := 1 } 0 true rfl
      (by norm_num [breakerInit])

/-- C10: an aggregation trigger with a valid postId and zero collected media
insights still publishes an enriched record with the safe defaults:
mediaCount "0", empty tag/scene lists, totalFaces "0", isSafe "true",
moderationConfidence "1.0", inferredEventType "general", combinedCaption "",
hasMultipleImages "false". -/
theorem C10_empty_aggregation_defaults (postId : Nat) (ts cid : String)
    (h : postId ≠ 0) :
    ∃ msg, aggregatorHandleMessage postId [] ts cid = some msg ∧
      alistGetD msg "mediaCount" "" = "0" ∧
      alistGetD msg "allAiTags" "" = "[]" ∧
      alistGetD msg "allAiScenes" "" = "[]" ∧
      alistGetD msg "aggregatedTags" "" = "[]" ∧
      alistGetD msg "aggregatedScenes" "" = "[]" ∧
      alistGetD msg "totalFaces" "" = "0" ∧
      alistGetD msg "isSafe" "" = "true" ∧
      alistGetD msg "moderationConfidence" "" = "1.0" ∧
      alistGetD msg "inferredEventType" "" = "general" ∧
      alistGetD msg "combinedCaption" "" = "" ∧
      alistGetD msg "hasMultipleImages" "" = "false" ∧
      alistGetD msg "version" "" = "1" := by
  unfold aggregatorHandleMessage
  rw [if_neg h]
  exact ⟨_, rfl, rfl, rfl, rfl, rfl, rfl, rfl, rfl, rfl, rfl, rfl, rfl, rfl⟩

/-- Witness for C10 at postId 7. -/
theorem C10_empty_aggregation_defaults_witness :
    (7 : Nat) ≠ 0 ∧
    ∃ msg, aggregatorHandleMessage 7 [] "t" "c" = some msg ∧
      alistGetD msg "mediaCount" "" = "0" ∧
      alistGetD msg "allAiTags" "" = "[]" ∧
      alistGetD msg "allAiScenes" "" = "[]" ∧
      alistGetD msg "aggregatedTags" "" = "[]" ∧
      alistGetD msg "aggregatedScenes" "" = "[]" ∧
      alistGetD msg "totalFaces" "" = "0" ∧
      alistGetD msg "isSafe" "" = "true" ∧
      alistGetD msg "moderationConfidence" "" = "1.0" ∧
      alistGetD msg "inferredEventType" "" = "general" ∧
      alistGetD msg "combinedCaption" "" = "" ∧
      alistGetD msg "hasMultipleImages" "" = "false" ∧
      alistGetD msg "version" "" = "1" :=
  ⟨by decide, C10_empty_aggregation_defaults 7 "t" "c" (by decide)⟩

theorem esHandleMessage_flush_inv (B : Nat) (T : ℚ) (st : EsBatchState)
    (now : ℚ) (act : Option Nat) (st' : EsBatchState) (f : FlushEvent)
    (h : esHandleMessage B T st now act = (st', some f)) :
    f.time = now ∧ act ≠ none := by
  match act with
  | none =>
    rw [esHandleMessage] at h
    exact absurd (congrArg Prod.snd h) (by simp)
  | some a =>
    refine ⟨?_, by simp⟩
    rw [esHandleMessage] at h
    split at h
    · cases h
      rfl
    · split at h
      · cases h
        rfl
      · exact absurd (congrArg Prod.snd h) (by simp)

theorem esRun_foldl_aux (B : Nat) (T : ℚ) :
    ∀ (events : List (ℚ × Option Nat)) (st : EsBatchState) (acc : List FlushEvent),
      (events.foldl
        (fun (a : EsBatchState × List FlushEvent) ev =>
          let r := esHandleMessage B T a.1 ev.1 ev.2
          (r.1, a.2 ++ (match r.2 with | some f => [f] | none => [])))
        (st, acc)).2
      = acc ++ (esRun B T st events).2 := by
  intro events
  induction events with
  | nil => intro st acc; simp [esRun]
  | cons ev rest ih =>
    intro st acc
    simp only [esRun, List.foldl_cons]
    rw [ih, ih]
    simp [List.append_assoc]

theorem esRun_flush_only_on_arrival (B : Nat) (T : ℚ) :
    ∀ (events : List (ℚ × Option Nat)) (st : EsBatchState),
      ∀ f ∈ (esRun B T st events).2, ∃ ev ∈ events, f.time = ev.1 ∧ ev.2 ≠ none := by
  intro events
  induction events with
  | nil => intro st f hf; simp [esRun] at hf
  | cons ev rest ih =>
    intro st f hf
    rw [esRun, List.foldl_cons] at hf
    rw [esRun_foldl_aux] at hf
    rcases List.mem_append.mp hf with hf | hf
    · rcases hr : (esHandleMessage B T st ev.1 ev.2).2 with _ | f0
      · rw [hr] at hf
        simp at hf
      · rw [hr] at hf
        simp only [List.nil_append, List.mem_singleton] at hf
        subst hf
        have := esHandleMessage_flush_inv B T st ev.1 ev.2
          (esHandleMessage B T st ev.1 ev.2).1 f
          (by rw [← hr])
        exact ⟨ev, List.mem_cons_self ev rest, this.1, this.2⟩
    · rcases ih _ f hf with ⟨ev', hev', h1, h2⟩
      exact ⟨ev', List.mem_cons_of_mem ev hev', h1, h2⟩

/-- C8 counterexample: with `ES_SYNC_BATCH_SIZE = 50` and
`ES_SYNC_BATCH_TIMEOUT = 2`, a single entry arriving at t = 1 is never
flushed (the run produces no flush at all, in particular none ≈ 2 s after the
entry arrived), and a single entry arriving at t = 10 into an empty buffer is
flushed immediately on arrival, because the timeout is measured from the last
flush (`batch_start`), not from the batch's first entry. -/
theorem C8_batch_timeout_counterexample :
    esRun 50 2 ⟨[], 0⟩ [(1, some 0)] = (⟨[0], 0⟩, []) ∧
    esRun 50 2 ⟨[], 0⟩ [(10, some 0)] = (⟨[], 10⟩, [⟨10, [0]⟩]) := by
  constructor <;> norm_num [esRun, esHandleMessage]

/-- C8 (amended): entries accumulate in the in-memory buffer, and the buffer
is examined only when a message arrives: an arrival that brings the buffer to
`ES_SYNC_BATCH_SIZE` flushes it; otherwise an arrival at a time at least
`ES_SYNC_BATCH_TIMEOUT` after `batch_start` (the time of the previous flush,
or worker start) flushes the partial batch; otherwise the buffer grows and no
flush happens.  In particular every flush of a run happens exactly at the
arrival time of some queued message — a partial batch with no later arrival
is not flushed by any timer. -/
theorem C8_batch_flush_amended :
    (∀ (B : Nat) (T : ℚ) (st : EsBatchState) (now : ℚ),
        esHandleMessage B T st now none = (st, none)) ∧
    (∀ (B : Nat) (T : ℚ) (st : EsBatchState) (now : ℚ) (a : Nat),
        B ≤ (st.batchActions ++ [a]).length →
        esHandleMessage B T st now (some a)
          = (⟨[], now⟩, some ⟨now, st.batchActions ++ [a]⟩)) ∧
    (∀ (B : Nat) (T : ℚ) (st : EsBatchState) (now : ℚ) (a : Nat),
        (st.batchActions ++ [a]).length < B → T ≤ now - st.batchStart →
        esHandleMessage B T st now (some a)
          = (⟨[], now⟩, some ⟨now, st.batchActions ++ [a]⟩)) ∧
    (∀ (B : Nat) (T : ℚ) (st : EsBatchState) (now : ℚ) (a : Nat),
        (st.batchActions ++ [a]).length < B → now - st.batchStart < T →
        esHandleMessage B T st now (some a)
          = (⟨st.batchActions ++ [a], st.batchStart⟩, none)) ∧
    (∀ (B : Nat) (T : ℚ) (st : EsBatchState) (events : List (ℚ × Option Nat)),
        ∀ f ∈ (esRun B T st events).2, ∃ ev ∈ events, f.time = ev.1 ∧ ev.2 ≠ none) := by
  refine ⟨?_, ?_, ?_, ?_, ?_⟩
  · intro B T st now
    rfl
  · intro B T st now a h
    rw [esHandleMessage]
    simp only [if_pos h]
  · intro B T st now a hlt hT
    rw [esHandleMessage]
    rw [if_neg (not_le.mpr hlt), if_pos hT]
  · intro B T st now a hlt hT
    rw [esHandleMessage]
    rw [if_neg (not_le.mpr hlt), if_neg (not_le.mpr hT)]
  · intro B T st events
    exact esRun_flush_only_on_arrival B T events st

/-- Witness for the amended C8 at concrete states. -/
theorem C8_batch_flush_amended_witness :
    esHandleMessage 50 2 ⟨[], 0⟩ 1 none = (⟨[], 0⟩, none) ∧
    esHandleMessage 2 2 ⟨[5], 0⟩ 1 (some 6) = (⟨[], 1⟩, some ⟨1, [5, 6]⟩) ∧
    esHandleMessage 50 2 ⟨[5], 0⟩ 3 (some 6) = (⟨[], 3⟩, some ⟨3, [5, 6]⟩) ∧
    esHandleMessage 50 2 ⟨[5], 0⟩ 1 (some 6) = (⟨[5, 6], 0⟩, none) ∧
    (∃ ev ∈ [((3 : ℚ), some 5)], (FlushEvent.mk 3 [5]).time = ev.1 ∧ ev.2 ≠ none) := by
  obtain ⟨h1, h2, h3, h4, h5⟩ := C8_batch_flush_amended
  refine ⟨h1 50 2 ⟨[], 0⟩ 1, h2 2 2 ⟨[5], 0⟩ 1 6 (by decide),
         h3 50 2 ⟨[5], 0⟩ 3 6 (by decide) (by norm_num),
         h4 50 2 ⟨[5], 0⟩ 1 6 (by decide) (by norm_num), ?_⟩
  refine h5 50 2 ⟨[], 0⟩ [(3, some 5)] ⟨3, [5]⟩ ?_
  have hrun : (esRun 50 2 ⟨[], 0⟩ [(3, some 5)]).2 = [⟨3, [5]⟩] := by
    norm_num [esRun, esHandleMessage]
  rw [hrun]
  exact List.mem_singleton.mpr rfl

/-- C2: for every pending entry inspected by `claim_pending_messages`: an
entry idle less than `PENDING_IDLE_MS` is untouched; one idle at least
`PENDING_IDLE_MS` with delivery count at least `max_claim_failures` and a DLQ
publisher configured has its original entry read by id, emitted to the DLQ
publisher, and acked; otherwise the entry is claimed for this consumer,
re-dispatched through the handler, and acked exactly on normal handler
return. -/
theorem C2_pending_scan (cfg : ConsumerCfg) (stream claimRes : MsgId → Option EntryData)
    (handler : Handler) (pending : List PendingInfo) :
    claimPendingScan cfg stream claimRes handler pending
        = pending.flatMap (scanEntry cfg stream claimRes handler) ∧
    ∀ e ∈ pending,
      (e.idle < PENDING_IDLE_MS → scanEntry cfg stream claimRes handler e = []) ∧
      (PENDING_IDLE_MS ≤ e.idle → cfg.maxClaimFailures ≤ e.timesDelivered →
        cfg.dlqConfigured = true →
        scanEntry cfg stream claimRes handler e
          = [.dlqEmit e.messageId ((stream e.messageId).getD []), .ack e.messageId]) ∧
      (PENDING_IDLE_MS ≤ e.idle →
        (e.timesDelivered < cfg.maxClaimFailures ∨ cfg.dlqConfigured = false) →
        (claimRes e.messageId = none →
          scanEntry cfg stream claimRes handler e = []) ∧
        (∀ d, claimRes e.messageId = some d →
          (exceptOk (handler e.messageId d) = true →
            scanEntry cfg stream claimRes handler e
              = [.claim e.messageId, .dispatch e.messageId true, .ack e.messageId]) ∧
          (exceptOk (handler e.messageId d) = false →
            scanEntry cfg stream claimRes handler e
              = [.claim e.messageId, .dispatch e.messageId false]))) := by
  refine ⟨rfl, ?_⟩
  intro e _
  refine ⟨?_, ?_, ?_⟩
  · intro h
    rw [scanEntry, if_pos h]
  · intro h1 h2 h3
    rw [scanEntry, if_neg (not_lt.mpr h1), if_pos ⟨h2, h3⟩]
  · intro h1 hor
    have h2 : ¬ (cfg.maxClaimFailures ≤ e.timesDelivered ∧ cfg.dlqConfigured = true) := by
      rcases hor with h | h
      · rintro ⟨hle, _⟩
        exact absurd hle (not_le.mpr h)
      · rintro ⟨_, hd⟩
        rw [h] at hd
        exact absurd hd (by decide)
    constructor
    · intro hnone
      rw [scanEntry, if_neg (not_lt.mpr h1), if_neg h2]
      simp only [hnone]
    · intro d hsome
      constructor
      · intro hok
        cases hh : handler e.messageId d with
        | ok u =>
          rw [scanEntry, if_neg (not_lt.mpr h1), if_neg h2]
          simp only [hsome, hh]
        | error s =>
          rw [hh] at hok
          exact absurd hok (by simp [exceptOk])
      · intro hfail
        cases hh : handler e.messageId d with
        | ok u =>
          rw [hh] at hfail
          exact absurd hfail (by simp [exceptOk])
        | error s =>
          rw [scanEntry, if_neg (not_lt.mpr h1), if_neg h2]
          simp only [hsome, hh]

/-- Witness for C2: the DLQ branch and both claim-redispatch branches at
concrete pending entries. -/
theorem C2_pending_scan_witness :
    scanEntry ⟨3, true⟩ (fun _ => some [("k", "v")]) (fun _ => some [("k", "v")])
        (fun _ _ => .ok ()) ⟨"1-1", 300000, 3⟩
      = [.dlqEmit "1-1" [("k", "v")], .ack "1-1"] ∧
    scanEntry ⟨3, true⟩ (fun _ => some [("k", "v")]) (fun _ => some [("k", "v")])
        (fun _ _ => .ok ()) ⟨"1-2", 100, 1⟩ = [] ∧
    scanEntry ⟨3, true⟩ (fun _ => some [("k", "v")]) (fun _ => some [("k", "v")])
        (fun _ _ => .ok ()) ⟨"1-3", 300000, 1⟩
      = [.claim "1-3", .dispatch "1-3" true, .ack "1-3"] ∧
    scanEntry ⟨3, true⟩ (fun _ => some [("k", "v")]) (fun _ => some [("k", "v")])
        (fun _ _ => .error "boom") ⟨"1-4", 300000, 1⟩
      = [.claim "1-4", .dispatch "1-4" false] := by
  refine ⟨?_, ?_, ?_, ?_⟩
  · exact ((C2_pending_scan ⟨3, true⟩ _ _ _ [⟨"1-1", 300000, 3⟩]).2 _
      (List.mem_singleton.mpr rfl)).2.1 (by decide) (by decide) rfl
  · exact ((C2_pending_scan ⟨3, true⟩ _ _ _ [⟨"1-2", 100, 1⟩]).2 _
      (List.mem_singleton.mpr rfl)).1 (by decide)
  · exact (((C2_pending_scan ⟨3, true⟩ _ _ _ [⟨"1-3", 300000, 1⟩]).2 _
      (List.mem_singleton.mpr rfl)).2.2 (by decide) (Or.inl (by decide))).2
      [("k", "v")] rfl |>.1 rfl
  · exact (((C2_pending_scan ⟨3, true⟩ _ _ _ [⟨"1-4", 300000, 1⟩]).2 _
      (List.mem_singleton.mpr rfl)).2.2 (by decide) (Or.inl (by decide))).2
      [("k", "v")] rfl |>.2 rfl

theorem consumeBatch_foldl_aux (handler : Handler) :
    ∀ (entries : List (MsgId × EntryData)) (st : GroupState) (acc : List MsgId),
      entries.foldl
        (fun (a : GroupState × List MsgId) e =>
          let r := processNewEntry handler a.1 e
          (r.1, a.2 ++ if r.2 then [e.1] else []))
        (st, acc)
      = ((consumeBatch handler st entries).1,
         acc ++ (consumeBatch handler st entries).2) := by
  intro entries
  induction entries with
  | nil => intro st acc; simp [consumeBatch]
  | cons e rest ih =>
    intro st acc
    simp only [consumeBatch, List.foldl_cons]
    rw [ih, ih]
    simp [List.append_assoc]

/-- C1: in the consume loop, every read entry enters the group's pending set
on delivery and is `XACK`ed exactly when the handler invocation returns
normally; an entry whose handler raised stays in the pending set, and the
final pending set is the prior one plus precisely the failed entries (an
entry leaves the pending set only through the explicit `xack`). -/
theorem C1_consume_ack (handler : Handler) (st : GroupState)
    (entries : List (MsgId × EntryData))
    (hnodup : (entries.map Prod.fst).Nodup)
    (hfresh : ∀ e ∈ entries, e.1 ∉ st.pending) :
    (consumeBatch handler st entries).1.pending
      = st.pending
        ++ (entries.filter (fun e => !(exceptOk (handler e.1 e.2)))).map Prod.fst ∧
    (consumeBatch handler st entries).2
      = (entries.filter (fun e => exceptOk (handler e.1 e.2))).map Prod.fst := by
  induction entries generalizing st with
  | nil => simp [consumeBatch]
  | cons e rest ih =>
    have hmn : (e.1 :: rest.map Prod.fst).Nodup := by
      rw [← List.map_cons]
      exact hnodup
    have hheads : e.1 ∉ rest.map Prod.fst := (List.nodup_cons.mp hmn).1
    have hnodup' : (rest.map Prod.fst).Nodup := (List.nodup_cons.mp hmn).2
    have hfresh_e : e.1 ∉ st.pending := hfresh e (List.mem_cons_self e rest)
    simp only [consumeBatch, List.foldl_cons]
    rw [consumeBatch_foldl_aux handler rest]
    cases hh : handler e.1 e.2 with
    | ok u =>
      have hstep : processNewEntry handler st e = (st, true) := by
        simp only [processNewEntry, hh, deliver, xack]
        refine Prod.ext ?_ rfl
        show GroupState.mk ((st.pending ++ [e.1]).filter (fun x => x ≠ e.1)) = st
        rw [List.filter_append, filter_ne_of_not_mem hfresh_e]
        simp
      rw [hstep]
      have := ih st hnodup' (fun e' he' => hfresh e' (List.mem_cons_of_mem e he'))
      refine ⟨?_, ?_⟩
      · rw [this.1]
        simp [List.filter_cons, exceptOk, hh]
      · rw [this.2]
        simp [List.filter_cons, exceptOk, hh]
    | error s =>
      have hstep : processNewEntry handler st e = (⟨st.pending ++ [e.1]⟩, false) := by
        simp [processNewEntry, hh, deliver]
      rw [hstep]
      have hfresh' : ∀ e' ∈ rest, e'.1 ∉ (st.pending ++ [e.1]) := by
        intro e' he'
        rw [List.mem_append]
        rintro (hmem | hmem)
        · exact hfresh e' (List.mem_cons_of_mem e he') hmem
        · have : e'.1 = e.1 := by simpa using hmem
          exact hheads (this ▸ List.mem_map_of_mem Prod.fst he')
      have := ih ⟨st.pending ++ [e.1]⟩ hnodup' hfresh'
      refine ⟨?_, ?_⟩
      · rw [this.1]
        simp [List.filter_cons, exceptOk, hh, List.append_assoc]
      · rw [this.2]
        simp [List.filter_cons, exceptOk, hh]

/-- Witness for C1: a two-entry batch where the handler accepts `"a"` and
raises on `"b"`: exactly `"a"` is acked and exactly `"b"` stays pending. -/
theorem C1_consume_ack_witness :
    (consumeBatch (fun id _ => if id = "a" then .ok () else .error "x")
        ⟨[]⟩ [("a", []), ("b", [])]).1.pending = ["b"] ∧
    (consumeBatch (fun id _ => if id = "a" then .ok () else .error "x")
        ⟨[]⟩ [("a", []), ("b", [])]).2 = ["a"] := by
  have h := C1_consume_ack (fun id _ => if id = "a" then .ok () else .error "x")
    ⟨[]⟩ [("a", []), ("b", [])] (by decide) (by intro e he; simp)
  constructor
  · rw [h.1]
    rfl
  · rw [h.2]
    rfl

theorem pyMaxQ_left_le (a b : ℚ) : a ≤ pyMaxQ a b := by
  unfold pyMaxQ
  split
  · exact le_of_lt (by assumption)
  · exact le_refl a

theorem pyMaxQ_right_le (a b : ℚ) : b ≤ pyMaxQ a b := by
  unfold pyMaxQ
  split
  · exact le_refl b
  · exact le_of_not_lt (by assumption)

theorem pyMaxQ_choice (a b : ℚ) : pyMaxQ a b = a ∨ pyMaxQ a b = b := by
  unfold pyMaxQ
  split
  · exact Or.inr rfl
  · exact Or.inl rfl

theorem le_listMaxD (l : List ℚ) (d : ℚ) : ∀ x ∈ l, x ≤ listMaxD l d := by
  have aux : ∀ (xs : List ℚ) (a : ℚ),
      a ≤ xs.foldl pyMaxQ a ∧ ∀ x ∈ xs, x ≤ xs.foldl pyMaxQ a := by
    intro xs
    induction xs with
    | nil => intro a; simp
    | cons x xs ih =>
      intro a
      refine ⟨le_trans (pyMaxQ_left_le a x) (ih (pyMaxQ a x)).1, ?_⟩
      intro y hy
      rcases List.mem_cons.mp hy with rfl | hy
      · exact le_trans (pyMaxQ_right_le a y) (ih (pyMaxQ a y)).1
      · exact (ih (pyMaxQ a x)).2 y hy
  intro x hx
  match l, hx with
  | y :: ys, hx =>
    rcases List.mem_cons.mp hx with rfl | hx
    · exact (aux ys x).1
    · exact (aux ys y).2 x hx

theorem listMaxD_mem (l : List ℚ) (d : ℚ) (hne : l ≠ []) : listMaxD l d ∈ l := by
  have aux : ∀ (xs : List ℚ) (a : ℚ),
      xs.foldl pyMaxQ a = a ∨ xs.foldl pyMaxQ a ∈ xs := by
    intro xs
    induction xs with
    | nil => intro a; exact Or.inl rfl
    | cons x xs ih =>
      intro a
      rcases ih (pyMaxQ a x) with h | h
      · rcases pyMaxQ_choice a x with hc | hc
        · rw [List.foldl_cons, h, hc]
          exact Or.inl rfl
        · rw [List.foldl_cons, h, hc]
          exact Or.inr (List.mem_cons_self x xs)
      · rw [List.foldl_cons]
        exact Or.inr (List.mem_cons_of_mem x h)
  match l, hne with
  | y :: ys, _ =>
    rcases aux ys y with h | h
    · rw [listMaxD, h]
      exact List.mem_cons_self y ys
    · rw [listMaxD]
      exact List.mem_cons_of_mem y h

theorem hfAnalyze_is_safe_iff (apiScores : List (String × ℚ)) :
    (hfAnalyze apiScores).is_safe = true
      ↔ (nsfwScore apiScores < UNSAFE_THRESHOLD
          ∧ nsfwScore apiScores < safeScore apiScores) := by
  unfold hfAnalyze
  rcases h : sortDescBy (fun kv => kv.2) apiScores with _ | ⟨top, rest⟩ <;>
    rw [h] <;> simp [Bool.and_eq_true, decide_eq_true_eq]

/-- C7 counterexample: for the provider label map
`[(" safe", 1), ("nsfw", 0)]` the implementation returns `is_safe = true`
(its normalization strips the surrounding whitespace of `" safe"`, so
`safe_score = 1 > 0 = nsfw_score`), while the claim's law — with labels
normalized only by lowercasing and underscore replacement — gives
`safe_score = 0` and hence `is_safe = false`. -/
theorem C7_moderation_counterexample :
    (hfAnalyze [(" safe", 1), ("nsfw", 0)]).is_safe = true ∧
    specIsSafe [(" safe", 1), ("nsfw", 0)] = false := by
  constructor
  · refine (hfAnalyze_is_safe_iff _).mpr ⟨?_, ?_⟩
    · rw [show nsfwScore [(" safe", 1), ("nsfw", 0)] = 0 from rfl]
      norm_num [UNSAFE_THRESHOLD]
    · rw [show nsfwScore [(" safe", 1), ("nsfw", 0)] = 0 from rfl,
          show safeScore [(" safe", 1), ("nsfw", 0)] = 1 from rfl]
      norm_num
  · rw [specIsSafe]
    have h : decide (specNsfwScore [(" safe", 1), ("nsfw", 0)]
        < specSafeScore [(" safe", 1), ("nsfw", 0)]) = false := by
      rw [show specNsfwScore [(" safe", 1), ("nsfw", 0)] = 0 from rfl,
          show specSafeScore [(" safe", 1), ("nsfw", 0)] = 0 from rfl]
      simp
    rw [h, Bool.and_false]

/-- C7 (amended): the moderation provider computes `nsfw_score` as the
maximum of the scores of the NSFW label set and `safe_score` as the maximum
over the safe label set — a missing label contributing 0 — after normalizing
labels by lowercasing, replacing underscores with spaces, AND stripping
surrounding whitespace; `is_safe` is true iff
`nsfw_score < 0.45 ∧ safe_score > nsfw_score`. -/
theorem C7_moderation_amended (apiScores : List (String × ℚ)) :
    ((hfAnalyze apiScores).is_safe = true
      ↔ (nsfwScore apiScores < UNSAFE_THRESHOLD
          ∧ nsfwScore apiScores < safeScore apiScores)) ∧
    (∀ l ∈ NSFW_LABELS, normGet apiScores l ≤ nsfwScore apiScores) ∧
    (∃ l ∈ NSFW_LABELS, nsfwScore apiScores = normGet apiScores l) ∧
    (∀ l ∈ SAFE_LABELS, normGet apiScores l ≤ safeScore apiScores) ∧
    (∃ l ∈ SAFE_LABELS, safeScore apiScores = normGet apiScores l) := by
  refine ⟨hfAnalyze_is_safe_iff apiScores, ?_, ?_, ?_, ?_⟩
  · intro l hl
    exact le_listMaxD _ 0 _ (List.mem_map_of_mem (normGet apiScores) hl)
  · have h := listMaxD_mem (NSFW_LABELS.map (normGet apiScores)) 0 (by simp [NSFW_LABELS])
    rcases List.mem_map.mp h with ⟨l, hl, he⟩
    exact ⟨l, hl, by rw [nsfwScore, ← he]⟩
  · intro l hl
    exact le_listMaxD _ 0 _ (List.mem_map_of_mem (normGet apiScores) hl)
  · have h := listMaxD_mem (SAFE_LABELS.map (normGet apiScores)) 0 (by simp [SAFE_LABELS])
    rcases List.mem_map.mp h with ⟨l, hl, he⟩
    exact ⟨l, hl, by rw [safeScore, ← he]⟩

/-- Witness for the amended C7 at a concrete label map. -/
theorem C7_moderation_amended_witness :
    ((hfAnalyze [("NSFW", 0), ("safe", 1)]).is_safe = true
      ↔ (nsfwScore [("NSFW", 0), ("safe", 1)] < UNSAFE_THRESHOLD
          ∧ nsfwScore [("NSFW", 0), ("safe", 1)]
              < safeScore [("NSFW", 0), ("safe", 1)])) ∧
    normGet [("NSFW", 0), ("safe", 1)] "nsfw"
      ≤ nsfwScore [("NSFW", 0), ("safe", 1)] ∧
    normGet [("NSFW", 0), ("safe", 1)] "safe"
      ≤ safeScore [("NSFW", 0), ("safe", 1)] := by
  have h := C7_moderation_amended [("NSFW", 0), ("safe", 1)]
  exact ⟨h.1, h.2.1 "nsfw" (by decide), h.2.2.2.1 "safe" (by decide)⟩

/-- C3: at the concrete failing input — original entry
`\x7bmediaId: 42, postId: 7\x7d` (bytes), error "boom" of class ValueError from
content-moderation after 3 attempts — the emitted DLQ entry has exactly the
seven fields `originalMessageId, originalData, service, error, errorType,
retryCount, timestamp` and NO `version` field, and its `originalData` blob
(the Python `str()` of the raw bytes dict) is not JSON, so the DLQ processor
recovers `\x7b"raw": <repr string>\x7d` instead of the original field map: the
round-trip required by the spec fails. -/
theorem C3_dlq_contract_bug :
    (dlqMessage "1699-0" [("mediaId", "42"), ("postId", "7")] "boom" "ValueError"
        "content-moderation" 3 1700000000).map Prod.fst
      = ["originalMessageId", "originalData", "service", "error", "errorType",
         "retryCount", "timestamp"] ∧
    "version" ∉ (dlqMessage "1699-0" [("mediaId", "42"), ("postId", "7")] "boom"
        "ValueError" "content-moderation" 3 1700000000).map Prod.fst ∧
    dlqProcessorRecover (dlqWire "1699-0" [("mediaId", "42"), ("postId", "7")]
        "boom" "ValueError" "content-moderation" 3 1700000000)
      = JVal.obj [("raw", JVal.str (pyBytesDictRepr [("mediaId", "42"), ("postId", "7")]))] ∧
    dlqProcessorRecover (dlqWire "1699-0" [("mediaId", "42"), ("postId", "7")]
        "boom" "ValueError" "content-moderation" 3 1700000000)
      ≠ JVal.obj [("mediaId", JVal.str "42"), ("postId", JVal.str "7")] := by
  refine ⟨by decide, by decide, ?_, ?_⟩
  · rfl
  · intro h
    rw [show dlqProcessorRecover (dlqWire "1699-0" [("mediaId", "42"), ("postId", "7")]
        "boom" "ValueError" "content-moderation" 3 1700000000)
      = JVal.obj [("raw", JVal.str (pyBytesDictRepr [("mediaId", "42"), ("postId", "7")]))]
      from rfl] at h
    simp [pyBytesDictRepr, pyBytesRepr] at h

theorem sortDescBy_ne_nil {α : Type} (key : α → ℚ) {l : List α} (h : l ≠ []) :
    sortDescBy key l ≠ [] := by
  intro hs
  exact h (List.eq_nil_of_length_eq_zero
    (by rw [← (sortDescBy_perm key l).length_eq, hs]; rfl))

theorem take_ne_nil_of_pos {α : Type} {l : List α} {n : Nat} (hn : 0 < n)
    (h : l ≠ []) : l.take n ≠ [] := by
  match l, h with
  | x :: xs, _ =>
    match n, hn with
    | m + 1, _ => simp

theorem nodup_keys_inj :
    ∀ (l : List (String × ℚ)), (l.map Prod.fst).Nodup →
      ∀ a ∈ l, ∀ b ∈ l, a.1 = b.1 → a = b := by
  intro l
  induction l with
  | nil =>
    intro _ a ha
    exact absurd ha (List.not_mem_nil a)
  | cons x xs ih =>
    intro h a ha b hb hab
    have hmn : (x.1 :: xs.map Prod.fst).Nodup := by
      rw [← List.map_cons]
      exact h
    have hx : x.1 ∉ xs.map Prod.fst := (List.nodup_cons.mp hmn).1
    have hxs : (xs.map Prod.fst).Nodup := (List.nodup_cons.mp hmn).2
    rcases List.mem_cons.mp ha with ha1 | ha1
    · rcases List.mem_cons.mp hb with hb1 | hb1
      · rw [ha1, hb1]
      · exfalso
        apply hx
        have hm : b.1 ∈ xs.map Prod.fst := List.mem_map_of_mem Prod.fst hb1
        rw [← hab, ha1] at hm
        exact hm
    · rcases List.mem_cons.mp hb with hb1 | hb1
      · exfalso
        apply hx
        have hm : a.1 ∈ xs.map Prod.fst := List.mem_map_of_mem Prod.fst ha1
        rw [hab, hb1] at hm
        exact hm
      · exact ih hxs a ha1 b hb1 hab

theorem hfTag_tags_eq (apiScores : List (String × ℚ)) (n : Nat) (θ : ℚ) :
    (hfTag apiScores n θ).tags
      = if ((sortDescBy (fun ts => ts.2)
              (apiScores.filter (fun ts => θ < ts.2))).take n = [] ∧ apiScores ≠ [])
        then ((sortDescBy (fun ts => ts.2) apiScores).take n).map Prod.fst
        else ((sortDescBy (fun ts => ts.2)
              (apiScores.filter (fun ts => θ < ts.2))).take n).map Prod.fst := by
  by_cases hcond : ((sortDescBy (fun ts => ts.2)
      (apiScores.filter (fun ts => θ < ts.2))).take n = [] ∧ apiScores ≠ [])
  · simp only [hfTag]
    rw [if_pos hcond, if_pos hcond]
  · simp only [hfTag]
    rw [if_neg hcond, if_neg hcond]

/-- C6: for every provider score map with distinct tags and positive `top_n`,
the tagging operation returns at most `top_n` tags drawn from the score map;
when some score clears the threshold every returned tag has score strictly
above the threshold and dominates (by score) every unreturned tag above the
threshold; and the returned tag list is empty exactly when the provider
returned no scores at all. -/
theorem C6_tagging (apiScores : List (String × ℚ)) (n : Nat) (θ : ℚ)
    (hn : 0 < n) (hkeys : (apiScores.map Prod.fst).Nodup) :
    ((hfTag apiScores n θ).tags = [] ↔ apiScores = []) ∧
    (hfTag apiScores n θ).tags.length ≤ n ∧
    (∀ t ∈ (hfTag apiScores n θ).tags, ∃ s, (t, s) ∈ apiScores) ∧
    ((∃ p ∈ apiScores, θ < p.2) →
       ∀ t ∈ (hfTag apiScores n θ).tags, ∃ s, (t, s) ∈ apiScores ∧ θ < s) ∧
    (∀ p ∈ apiScores, p.1 ∈ (hfTag apiScores n θ).tags →
       ∀ q ∈ apiScores, q.1 ∉ (hfTag apiScores n θ).tags → θ < q.2 → q.2 ≤ p.2) := by
  classical
  set key : String × ℚ → ℚ := fun ts => ts.2 with hkey
  set F := apiScores.filter (fun ts => θ < ts.2) with hF
  set SF := sortDescBy key F with hSF
  set SA := sortDescBy key apiScores with hSA
  have htags := hfTag_tags_eq apiScores n θ
  have hmem_SF : ∀ x, x ∈ SF ↔ x ∈ F := fun x => (sortDescBy_perm key F).mem_iff
  have hmem_SA : ∀ x, x ∈ SA ↔ x ∈ apiScores := fun x =>
    (sortDescBy_perm key apiScores).mem_iff
  constructor
  · constructor
    · intro he
      by_contra hne
      rw [htags] at he
      split at he
      · exact (take_ne_nil_of_pos hn (sortDescBy_ne_nil key hne))
          (List.map_eq_nil_iff.mp he)
      · rename_i hcond
        rcases not_and_or.mp hcond with hc | hc
        · exact hc (List.map_eq_nil_iff.mp he)
        · exact hc hne
    · intro he
      subst he
      simp [hfTag, sortDescBy, pySortStable]
  refine ⟨?_, ?_, ?_, ?_⟩
  · rw [htags]
    split
    · calc _ ≤ (SA.take n).length := le_of_eq (List.length_map _ _)
        _ ≤ n := List.length_take_le n SA
    · calc _ ≤ (SF.take n).length := le_of_eq (List.length_map _ _)
        _ ≤ n := List.length_take_le n SF
  · intro t ht
    rw [htags] at ht
    split at ht
    · rcases List.mem_map.mp ht with ⟨p, hp, rfl⟩
      exact ⟨p.2, (hmem_SA p).mp (List.take_subset n SA hp)⟩
    · rcases List.mem_map.mp ht with ⟨p, hp, rfl⟩
      exact ⟨p.2, List.mem_of_mem_filter ((hmem_SF p).mp (List.take_subset n SF hp))⟩
  · rintro ⟨p0, hp0, hθ0⟩ t ht
    have hFne : F ≠ [] := by
      intro hFe
      have : p0 ∈ F := List.mem_filter.mpr ⟨hp0, by simpa using hθ0⟩
      rw [hFe] at this
      exact absurd this (List.not_mem_nil p0)
    have hcond : ¬ (SF.take n = [] ∧ apiScores ≠ []) := by
      rintro ⟨hc, _⟩
      exact (take_ne_nil_of_pos hn (sortDescBy_ne_nil key hFne)) hc
    rw [htags, if_neg hcond] at ht
    rcases List.mem_map.mp ht with ⟨p, hp, rfl⟩
    have hpF : p ∈ F := (hmem_SF p).mp (List.take_subset n SF hp)
    rcases List.mem_filter.mp hpF with ⟨hpA, hpθ⟩
    exact ⟨p.2, hpA, by simpa using hpθ⟩
  · intro p hp hptags q hq hqtags hqθ
    have hqF : q ∈ F := List.mem_filter.mpr ⟨hq, by simpa using hqθ⟩
    have hFne : F ≠ [] := by
      intro hFe
      rw [hFe] at hqF
      exact absurd hqF (List.not_mem_nil q)
    have hcond : ¬ (SF.take n = [] ∧ apiScores ≠ []) := by
      rintro ⟨hc, _⟩
      exact (take_ne_nil_of_pos hn (sortDescBy_ne_nil key hFne)) hc
    rw [htags, if_neg hcond] at hptags hqtags
    rcases List.mem_map.mp hptags with ⟨p', hp', hp'1⟩
    have hp'A : p' ∈ apiScores :=
      List.mem_of_mem_filter ((hmem_SF p').mp (List.take_subset n SF hp'))
    have hpp : p' = p := nodup_keys_inj apiScores hkeys p' hp'A p hp hp'1
    have hqSF : q ∈ SF := (hmem_SF q).mpr hqF
    have hqdrop : q ∈ SF.drop n := by
      rcases List.mem_append.mp (by rw [List.take_append_drop n SF]; exact hqSF) with h | h
      · exact absurd (List.mem_map_of_mem Prod.fst h) hqtags
      · exact h
    have hpair := pairwise_take_drop (pairwise_sortDescBy key F) n p' hp' q hqdrop
    calc q.2 ≤ p'.2 := hpair
      _ = p.2 := by rw [hpp]

/-- Witness for C6 at a concrete two-tag score map. -/
theorem C6_tagging_witness :
    ((hfTag [("cat", 1), ("dog", 0)] 1 (-1)).tags = [] ↔
      ([("cat", 1), ("dog", 0)] : List (String × ℚ)) = []) ∧
    (hfTag [("cat", 1), ("dog", 0)] 1 (-1)).tags.length ≤ 1 ∧
    (0:ℚ) ≤ 1 := by
  have h := C6_tagging [("cat", 1), ("dog", 0)] 1 (-1) (by decide) (by decide)
  refine ⟨h.1, h.2.1, ?_⟩
  exact h.2.2.2.2 ("cat", 1) (by decide) (by decide) ("dog", 0) (by decide)
    (by decide) (by norm_num)

theorem aggStep_allTags (acc : AggAcc) (i : Insight) :
    (aggStep acc i).allTags = acc.allTags ++ i.tags := by
  unfold aggStep
  repeat' split
  all_goals rfl

theorem aggStep_allScenes (acc : AggAcc) (i : Insight) :
    (aggStep acc i).allScenes = acc.allScenes ++ i.scenes := by
  unfold aggStep
  repeat' split
  all_goals rfl

theorem aggStep_totalFaces (acc : AggAcc) (i : Insight) :
    (aggStep acc i).totalFaces = acc.totalFaces + facesCount i := by
  unfold aggStep facesCount
  repeat' split
  all_goals simp_all

theorem aggStep_isSafe (acc : AggAcc) (i : Insight) :
    (aggStep acc i).isSafe = (acc.isSafe && effectiveSafe i) := by
  unfold aggStep effectiveSafe
  repeat' split
  all_goals simp_all

theorem aggStep_minConf (acc : AggAcc) (i : Insight) :
    (aggStep acc i).minModerationConfidence
      = confApply acc.minModerationConfidence i := by
  unfold aggStep confApply
  repeat' split
  all_goals simp_all

theorem agg_foldl_allTags (l : List Insight) :
    ∀ acc : AggAcc, (l.foldl aggStep acc).allTags
      = acc.allTags ++ l.flatMap (fun i => i.tags) := by
  induction l with
  | nil => intro acc; simp
  | cons x xs ih =>
    intro acc
    rw [List.foldl_cons, ih, aggStep_allTags]
    simp

theorem agg_foldl_allScenes (l : List Insight) :
    ∀ acc : AggAcc, (l.foldl aggStep acc).allScenes
      = acc.allScenes ++ l.flatMap (fun i => i.scenes) := by
  induction l with
  | nil => intro acc; simp
  | cons x xs ih =>
    intro acc
    rw [List.foldl_cons, ih, aggStep_allScenes]
    simp

theorem agg_foldl_totalFaces (l : List Insight) :
    ∀ acc : AggAcc, (l.foldl aggStep acc).totalFaces
      = acc.totalFaces + (l.map facesCount).sum := by
  induction l with
  | nil => intro acc; simp
  | cons x xs ih =>
    intro acc
    rw [List.foldl_cons, ih, aggStep_totalFaces]
    simp [add_assoc]

theorem agg_foldl_isSafe (l : List Insight) :
    ∀ acc : AggAcc, (l.foldl aggStep acc).isSafe
      = (acc.isSafe && l.all effectiveSafe) := by
  induction l with
  | nil => intro acc; simp
  | cons x xs ih =>
    intro acc
    rw [List.foldl_cons, ih, aggStep_isSafe]
    simp [Bool.and_assoc]

theorem agg_foldl_minConf (l : List Insight) :
    ∀ acc : AggAcc, (l.foldl aggStep acc).minModerationConfidence
      = (truthyConfs l).foldl pyMinQ acc.minModerationConfidence := by
  induction l with
  | nil => intro acc; simp [truthyConfs]
  | cons x xs ih =>
    intro acc
    rw [List.foldl_cons, ih, aggStep_minConf]
    unfold confApply truthyConfs
    rcases hx : x.moderationConfidence with _ | cv
    · simp [List.filterMap_cons, hx, truthyConfs]
    · by_cases ht : cv.truthy
      · simp [List.filterMap_cons, hx, ht, truthyConfs]
      · simp [List.filterMap_cons, hx, ht, truthyConfs]

/-- The second branch of `aggregate_insights` on a nonempty list. -/
theorem aggregateInsights_cons (x : Insight) (xs : List Insight) :
    aggregateInsights (x :: xs)
      = (let acc := (x :: xs).foldl aggStep ⟨[], [], [], 0, true, 1⟩
         { mediaCount := (x :: xs).length
           allAiTags := acc.allTags
           allAiScenes := acc.allScenes
           aggregatedTags := mostCommon 10 acc.allTags
           aggregatedScenes := mostCommon 5 acc.allScenes
           totalFaces := acc.totalFaces
           isSafe := acc.isSafe
           moderationConfidence := acc.minModerationConfidence
           inferredEventType := detectEventType (mostCommon 10 acc.allTags)
             (mostCommon 5 acc.allScenes) (x :: xs).length
           combinedCaption := generateCombinedCaption acc.allCaptions
             (mostCommon 10 acc.allTags) (mostCommon 5 acc.allScenes)
           hasMultipleImages := decide (1 < (x :: xs).length) }) := rfl

theorem pyMinQ_le_left (a b : ℚ) : pyMinQ a b ≤ a := by
  unfold pyMinQ
  split
  · exact le_refl a
  · exact le_of_not_le (by assumption)

theorem pyMinQ_le_right (a b : ℚ) : pyMinQ a b ≤ b := by
  unfold pyMinQ
  split
  · assumption
  · exact le_refl b

theorem pyMinQ_choice (a b : ℚ) : pyMinQ a b = a ∨ pyMinQ a b = b := by
  unfold pyMinQ
  split
  · exact Or.inl rfl
  · exact Or.inr rfl

theorem foldl_pyMinQ_le_init (xs : List ℚ) : ∀ a : ℚ, xs.foldl pyMinQ a ≤ a := by
  induction xs with
  | nil => intro a; exact le_refl a
  | cons x xs ih =>
    intro a
    exact le_trans (ih (pyMinQ a x)) (pyMinQ_le_left a x)

theorem foldl_pyMinQ_le_mem (xs : List ℚ) :
    ∀ a : ℚ, ∀ x ∈ xs, xs.foldl pyMinQ a ≤ x := by
  induction xs with
  | nil => intro a x hx; exact absurd hx (List.not_mem_nil x)
  | cons y ys ih =>
    intro a x hx
    rcases List.mem_cons.mp hx with rfl | hx
    · exact le_trans (foldl_pyMinQ_le_init ys (pyMinQ a x)) (pyMinQ_le_right a x)
    · exact ih (pyMinQ a y) x hx

theorem foldl_pyMinQ_choice (xs : List ℚ) :
    ∀ a : ℚ, xs.foldl pyMinQ a = a ∨ xs.foldl pyMinQ a ∈ xs := by
  induction xs with
  | nil => intro a; exact Or.inl rfl
  | cons x xs ih =>
    intro a
    rcases ih (pyMinQ a x) with h | h
    · rcases pyMinQ_choice a x with hc | hc
      · rw [List.foldl_cons, h, hc]
        exact Or.inl rfl
      · rw [List.foldl_cons, h, hc]
        exact Or.inr (List.mem_cons_self x xs)
    · rw [List.foldl_cons]
      exact Or.inr (List.mem_cons_of_mem x h)

theorem mostCommon_length (n : Nat) (l : List String) :
    (mostCommon n l).length ≤ n := by
  unfold mostCommon
  exact List.length_take_le n _

theorem mostCommon_subset (n : Nat) (l : List String) :
    ∀ t ∈ mostCommon n l, t ∈ l := by
  intro t ht
  unfold mostCommon at ht
  have h1 : t ∈ sortDescBy (fun x => (l.count x : ℚ)) (dedupFirst l) :=
    List.take_subset n _ ht
  have h2 : t ∈ dedupFirst l := (sortDescBy_perm _ _).mem_iff.mp h1
  exact mem_dedupFirst.mp h2

theorem mostCommon_dominates (n : Nat) (l : List String) :
    ∀ t ∈ mostCommon n l, ∀ s ∈ l, s ∉ mostCommon n l →
      l.count s ≤ l.count t := by
  intro t ht s hs hsn
  set key : String → ℚ := fun x => (l.count x : ℚ) with hkey
  have hsd : s ∈ sortDescBy key (dedupFirst l) :=
    (sortDescBy_perm key (dedupFirst l)).mem_iff.mpr (mem_dedupFirst.mpr hs)
  have hsdrop : s ∈ (sortDescBy key (dedupFirst l)).drop n := by
    rcases List.mem_append.mp
        (by rw [List.take_append_drop n (sortDescBy key (dedupFirst l))]; exact hsd)
      with h | h
    · exact absurd h hsn
    · exact h
  have := pairwise_take_drop (pairwise_sortDescBy key (dedupFirst l)) n t ht s hsdrop
  simp only [hkey] at this
  exact_mod_cast this

/-- C5 counterexample: an insight whose `isSafe` value is the boolean
`False` is skipped by the aggregation loop's truthiness test, so the result
is reported safe although the per-image isSafe value is false; likewise a
numeric moderation confidence of exactly 0 is skipped, so the reported
minimum stays 1 although the per-image minimum is 0. -/
theorem C5_aggregate_counterexample :
    (aggregateInsights [{ isSafe := some (SafeVal.b false) }]).isSafe = true ∧
    SafeVal.interp (SafeVal.b false) = false ∧
    (aggregateInsights
        [{ moderationConfidence := some (ConfVal.n 0) }]).moderationConfidence = 1 ∧
    ConfVal.toRat (ConfVal.n 0) = 0 := by
  refine ⟨?_, rfl, ?_, rfl⟩
  · rw [aggregateInsights_cons]
    show ([{ isSafe := some (SafeVal.b false) }].foldl aggStep
      ⟨[], [], [], 0, true, 1⟩).isSafe = true
    rw [agg_foldl_isSafe]
    decide
  · rw [aggregateInsights_cons]
    show ([({ moderationConfidence := some (ConfVal.n 0) } : Insight)].foldl aggStep
      ⟨[], [], [], 0, true, 1⟩).minModerationConfidence = 1
    rw [agg_foldl_minConf]
    rfl

/-- C5 (amended): for every nonempty list of per-media insights the
aggregator reports `mediaCount` = list length, `allAiTags` = the
concatenated tags, `totalFaces` = the sum of the (truthy) per-image face
counts, `isSafe` = the conjunction of the per-image isSafe verdicts *over
insights whose isSafe value is truthy* (a boolean `False` or empty value is
skipped and counts as safe), `moderationConfidence` = the minimum of 1 and
the *truthy* per-image confidences (a numeric 0 is skipped), and
`aggregatedTags`/`aggregatedScenes` are at most 10/5 tags and scenes drawn
from the collected ones such that every omitted one has frequency no higher
than any included one. -/
theorem C5_aggregate_amended (x : Insight) (xs : List Insight) :
    (aggregateInsights (x :: xs)).mediaCount = (x :: xs).length ∧
    (aggregateInsights (x :: xs)).allAiTags = (x :: xs).flatMap (fun i => i.tags) ∧
    (aggregateInsights (x :: xs)).totalFaces = ((x :: xs).map facesCount).sum ∧
    (aggregateInsights (x :: xs)).isSafe = (x :: xs).all effectiveSafe ∧
    ((aggregateInsights (x :: xs)).moderationConfidence ≤ 1 ∧
      (∀ q ∈ truthyConfs (x :: xs),
        (aggregateInsights (x :: xs)).moderationConfidence ≤ q) ∧
      ((aggregateInsights (x :: xs)).moderationConfidence = 1 ∨
        (aggregateInsights (x :: xs)).moderationConfidence ∈ truthyConfs (x :: xs))) ∧
    ((aggregateInsights (x :: xs)).aggregatedTags.length ≤ 10 ∧
      (∀ t ∈ (aggregateInsights (x :: xs)).aggregatedTags,
        t ∈ (aggregateInsights (x :: xs)).allAiTags) ∧
      (∀ t ∈ (aggregateInsights (x :: xs)).aggregatedTags,
        ∀ s ∈ (aggregateInsights (x :: xs)).allAiTags,
          s ∉ (aggregateInsights (x :: xs)).aggregatedTags →
          (aggregateInsights (x :: xs)).allAiTags.count s
            ≤ (aggregateInsights (x :: xs)).allAiTags.count t)) ∧
    ((aggregateInsights (x :: xs)).aggregatedScenes.length ≤ 5 ∧
      (∀ t ∈ (aggregateInsights (x :: xs)).aggregatedScenes,
        t ∈ (aggregateInsights (x :: xs)).allAiScenes) ∧
      (∀ t ∈ (aggregateInsights (x :: xs)).aggregatedScenes,
        ∀ s ∈ (aggregateInsights (x :: xs)).allAiScenes,
          s ∉ (aggregateInsights (x :: xs)).aggregatedScenes →
          (aggregateInsights (x :: xs)).allAiScenes.count s
            ≤ (aggregateInsights (x :: xs)).allAiScenes.count t)) := by
  rw [aggregateInsights_cons]
  show _ ∧ _ ∧ _ ∧ _ ∧ _ ∧ _ ∧ _
  refine ⟨rfl, ?_, ?_, ?_, ?_, ?_, ?_⟩
  · show ((x :: xs).foldl aggStep ⟨[], [], [], 0, true, 1⟩).allTags = _
    rw [agg_foldl_allTags]
    rfl
  · show ((x :: xs).foldl aggStep ⟨[], [], [], 0, true, 1⟩).totalFaces = _
    rw [agg_foldl_totalFaces]
    simp
  · show ((x :: xs).foldl aggStep ⟨[], [], [], 0, true, 1⟩).isSafe = _
    rw [agg_foldl_isSafe]
    rfl
  · refine ⟨?_, ?_, ?_⟩
    · show ((x :: xs).foldl aggStep ⟨[], [], [], 0, true, 1⟩).minModerationConfidence ≤ 1
      rw [agg_foldl_minConf]
      exact foldl_pyMinQ_le_init _ 1
    · intro q hq
      show ((x :: xs).foldl aggStep ⟨[], [], [], 0, true, 1⟩).minModerationConfidence ≤ q
      rw [agg_foldl_minConf]
      exact foldl_pyMinQ_le_mem _ 1 q hq
    · show ((x :: xs).foldl aggStep
            ⟨[], [], [], 0, true, 1⟩).minModerationConfidence = 1
        ∨ ((x :: xs).foldl aggStep
            ⟨[], [], [], 0, true, 1⟩).minModerationConfidence ∈ truthyConfs (x :: xs)
      rw [agg_foldl_minConf]
      exact foldl_pyMinQ_choice _ 1
  · exact ⟨mostCommon_length 10 _, mostCommon_subset 10 _, mostCommon_dominates 10 _⟩
  · exact ⟨mostCommon_length 5 _, mostCommon_subset 5 _, mostCommon_dominates 5 _⟩

/-- Witness for the amended C5 at a concrete two-insight list. -/
theorem C5_aggregate_amended_witness :
    (aggregateInsights
        [{ tags := ["a", "b"], isSafe := some (SafeVal.s "false"),
           facesDetected := some (FacesVal.s 2) },
         { tags := ["a"], moderationConfidence := some (ConfVal.s 1) }]).mediaCount = 2 ∧
    (aggregateInsights
        [{ tags := ["a", "b"], isSafe := some (SafeVal.s "false"),
           facesDetected := some (FacesVal.s 2) },
         { tags := ["a"], moderationConfidence := some (ConfVal.s 1) }]).totalFaces
      = ([2, 0] : List ℤ).sum ∧
    (aggregateInsights
        [{ tags := ["a", "b"], isSafe := some (SafeVal.s "false"),
           facesDetected := some (FacesVal.s 2) },
         { tags := ["a"], moderationConfidence := some (ConfVal.s 1) }]).moderationConfidence
      ≤ 1 := by
  have h := C5_aggregate_amended
    { tags := ["a", "b"], isSafe := some (SafeVal.s "false"),
      facesDetected := some (FacesVal.s 2) }
    [{ tags := ["a"], moderationConfidence := some (ConfVal.s 1) }]
  exact ⟨h.1, h.2.2.1, h.2.2.2.2.1.1⟩

end Kaleidoscope
